import Mathlib

/-!
Verification of the legal-doc-studio template-processing and
multi-format export pipeline.

The development shallowly embeds the TypeScript core:
* `processTemplate`, `validateVariables` (template engine),
* `generateFallbackPdf`, `generateFallbackDocx`, `createMinimalDocxZip`,
  `crc32` / `getCrc32Table` (binary encoders).

Strings are modelled as `List Char`; JavaScript `String.replace` with the
concrete global regexes used by the source is modelled by deterministic
left-to-right scans (the patterns involved are deterministic on the
word/whitespace/brace alphabet they are applied to, so no backtracking
search is needed).  The ASCII fragments of the JS `\w` and `\s` classes
are used, matching the source's inputs.
-/

namespace LegalDoc

/-- ASCII fragment of the JS regex class `\w` = `[A-Za-z0-9_]`. -/
def isWordChar (c : Char) : Bool :=
  c.isAlphanum || c = '_'

/-- ASCII fragment of the JS regex class `\s` (space, tab, LF, CR, VT, FF). -/
def isWsChar (c : Char) : Bool :=
  c = ' ' || c = '\t' || c = '\n' || c = '\r' || c = Char.ofNat 11 || c = Char.ofNat 12

/-- Match a literal pattern at the head of a string, returning the rest. -/
def matchLit : List Char → List Char → Option (List Char)
  | [], s => some s
  | _ :: _, [] => none
  | p :: ps, c :: cs => if p = c then matchLit ps cs else none

/-- One global-replace pass, fuelled: at each position, if the matcher `f`
fires, emit its replacement and resume after the match (the replacement is
not rescanned, as with JS `String.replace`); otherwise copy one character. -/
def replaceGo (f : List Char → Option (List Char × List Char)) : Nat → List Char → List Char
  | 0, s => s
  | _ + 1, [] => []
  | n + 1, c :: r =>
    match f (c :: r) with
    | some (rep, t) => rep ++ replaceGo f n t
    | none => c :: replaceGo f n r

/-- A matcher always consumes at least one character. -/
def Shrinking (f : List Char → Option (List Char × List Char)) : Prop :=
  ∀ s rep t, f s = some (rep, t) → t.length < s.length

/-- Global replace over a whole string (fuel `s.length` always suffices for a
shrinking matcher). -/
def replaceAll (f : List Char → Option (List Char × List Char)) (s : List Char) : List Char :=
  replaceGo f s.length s

/-- The JS runtime value type that `processTemplate` receives
(`string | number | boolean`). -/
inductive JsValue : Type
  | vStr (s : String)
  | vNum (n : Int)
  | vBool (b : Bool)
  deriving DecidableEq, Repr

/-- JS `String(value)` coercion. -/
def JsValue.toJsString : JsValue → String
  | .vStr s => s
  | .vNum n => toString n
  | .vBool true => "true"
  | .vBool false => "false"

/-- Source truthiness test:
`value !== undefined && value !== false && value !== '' && value !== 0`. -/
def isTruthy : Option JsValue → Bool
  | none => false
  | some (.vStr s) => !(s == "")
  | some (.vNum n) => !(n == 0)
  | some (.vBool b) => b

/-- The literal `{{else}}` tag. -/
def elseTag : List Char := ['{', '{', 'e', 'l', 's', 'e', '}', '}']

/-- The literal `{{/if}}` tag. -/
def endifTag : List Char := ['{', '{', '/', 'i', 'f', '}', '}']

/-- The literal `{{/unless}}` tag. -/
def endUnlessTag : List Char := ['{', '{', '/', 'u', 'n', 'l', 'e', 's', 's', '}', '}']

/-- The opening brace pair `{{`. -/
def openBraces : List Char := ['{', '{']

/-- The closing brace pair `}}`. -/
def closeBraces : List Char := ['}', '}']

/-- The literal `{{#if` (head of the conditional tag). -/
def ifOpenLit : List Char := ['{', '{', '#', 'i', 'f']

/-- The literal `{{#unless` (head of the unless tag). -/
def unlessOpenLit : List Char := ['{', '{', '#', 'u', 'n', 'l', 'e', 's', 's']

/-- Matcher for `new RegExp('\\{\\{\\s*' + key + '\\s*\\}\\}')` applied at
the head of the string (deterministic for word-character keys). -/
def tryMatchVar (key : List Char) (s : List Char) : Option (List Char) :=
  (matchLit openBraces s).bind fun r =>
    (matchLit key (r.dropWhile isWsChar)).bind fun r2 =>
      matchLit closeBraces (r2.dropWhile isWsChar)

/-- Replacement matcher for one simple-variable key/value pair. -/
def varMatcher (key val : List Char) (s : List Char) : Option (List Char × List Char) :=
  (tryMatchVar key s).map (fun t => (val, t))

/-- Lazy scan for the earliest `{{/if}}`; returns the content before it and
the text after it. -/
def scanToEndif : List Char → Option (List Char × List Char)
  | [] => none
  | c :: r =>
    match matchLit endifTag (c :: r) with
    | some t => some ([], t)
    | none => (scanToEndif r).map (fun p => (c :: p.1, p.2))

/-- Body scan of the conditional regex
`([\s\S]*?)(?:\{\{else\}\}([\s\S]*?))?\{\{\/if\}\}`: the lazy group stops at
the earliest position where either `{{else}}` (followed somewhere by
`{{/if}}`) or `{{/if}}` matches.  Returns (if-content, else-content, rest). -/
def scanBody : List Char → Option (List Char × List Char × List Char)
  | [] => none
  | c :: r =>
    match matchLit elseTag (c :: r) with
    | some afterElse =>
      match scanToEndif afterElse with
      | some p => some ([], p.1, p.2)
      | none => (scanBody r).map (fun p => (c :: p.1, p.2.1, p.2.2))
    | none =>
      match matchLit endifTag (c :: r) with
      | some t => some ([], [], t)
      | none => (scanBody r).map (fun p => (c :: p.1, p.2.1, p.2.2))

/-- Match `\s+(\w+)\}\}` after a tag head: at least one whitespace
character, a nonempty word-character name, then `}}`.  Returns the name and
the rest.  Deterministic because the whitespace, word and brace character
classes are disjoint, so the greedy regex never backtracks here. -/
def matchWsNameBraces : List Char → Option (List Char × List Char)
  | [] => none
  | c :: r =>
    if isWsChar c then
      if ((r.dropWhile isWsChar).takeWhile isWordChar).isEmpty then none
      else
        (matchLit closeBraces ((r.dropWhile isWsChar).dropWhile isWordChar)).map
          (fun t => ((r.dropWhile isWsChar).takeWhile isWordChar, t))
    else none

/-- Head matcher for the conditional regex
`\{\{#if\s+(\w+)\}\}([\s\S]*?)(?:\{\{else\}\}([\s\S]*?))?\{\{\/if\}\}`.
Returns (variable name, if-content, else-content, rest). -/
def tryMatchCond (s : List Char) :
    Option (List Char × List Char × List Char × List Char) :=
  (matchLit ifOpenLit s).bind fun r =>
    (matchWsNameBraces r).bind fun p =>
      (scanBody p.2).map fun q => (p.1, q)

/-- Replacement matcher for one pass of the conditional substitution: the
matched block is replaced by its if-branch when `values[name]` is truthy,
otherwise by its else-branch (empty when absent). -/
def condMatcher (values : List (String × JsValue)) (s : List Char) :
    Option (List Char × List Char) :=
  (tryMatchCond s).map (fun p =>
    (if isTruthy (values.lookup (String.mk p.1)) then p.2.1 else p.2.2.1, p.2.2.2))

/-- The fixed placeholder `[___]` substituted for unresolved references. -/
def placeholderText : List Char := ['[', '_', '_', '_', ']']

/-- Matcher for `\{\{\s*\w+\s*\}\}` (an unresolved simple reference). -/
def tryMatchPlaceholder (s : List Char) : Option (List Char) :=
  (matchLit openBraces s).bind fun r =>
    if ((r.dropWhile isWsChar).takeWhile isWordChar).isEmpty then none
    else
      matchLit closeBraces
        (((r.dropWhile isWsChar).dropWhile isWordChar).dropWhile isWsChar)

/-- Replacement matcher substituting `[___]` for unresolved references. -/
def placeholderMatcher (s : List Char) : Option (List Char × List Char) :=
  (tryMatchPlaceholder s).map (fun t => (placeholderText, t))

/-- Matcher for the stray-syntax regex `\{\{#if\s+\w+\}\}`. -/
def tryMatchIfOpen (s : List Char) : Option (List Char) :=
  (matchLit ifOpenLit s).bind fun r => (matchWsNameBraces r).map (fun p => p.2)

/-- Matcher for the stray-syntax regex `\{\{#unless\s+\w+\}\}`. -/
def tryMatchUnlessOpen (s : List Char) : Option (List Char) :=
  (matchLit unlessOpenLit s).bind fun r => (matchWsNameBraces r).map (fun p => p.2)

/-- Strip matcher deleting stray `{{#if x}}` tags. -/
def ifOpenMatcher (s : List Char) : Option (List Char × List Char) :=
  (tryMatchIfOpen s).map (fun t => (([] : List Char), t))

/-- Strip matcher deleting stray `{{#unless x}}` tags. -/
def unlessOpenMatcher (s : List Char) : Option (List Char × List Char) :=
  (tryMatchUnlessOpen s).map (fun t => (([] : List Char), t))

/-- Replacement matcher for a literal pattern (refuses the empty pattern,
which never arises in the source). -/
def litMatcher (pat rep : List Char) (s : List Char) : Option (List Char × List Char) :=
  match pat with
  | [] => none
  | _ :: _ => (matchLit pat s).map (fun t => (rep, t))

/-- The fixed-point loop `while prevProcessed !== processed`, fuelled.  A
fuel of `length + 1` always suffices because a changing pass strictly
decreases the length (proved below), so this equals the source's loop. -/
def condFixAux (values : List (String × JsValue)) : Nat → List Char → List Char
  | 0, s => s
  | n + 1, s =>
    let s' := replaceAll (condMatcher values) s
    if s' = s then s else condFixAux values n s'

/-- Shallow embedding of `processTemplate` (src/unnamed/part_005, lines
307-343): simple-variable substitution for each entry of `values` in order,
the conditional fixed-point loop, the `[___]` placeholder substitution, and
the five stray-syntax cleanup passes. -/
def processTemplate (templateContent : String) (values : List (String × JsValue)) : String :=
  let s0 := templateContent.toList
  let s1 := values.foldl
    (fun acc kv => replaceAll (varMatcher kv.1.toList kv.2.toJsString.toList) acc) s0
  let s2 := condFixAux values (s1.length + 1) s1
  let s3 := replaceAll placeholderMatcher s2
  let s4 := replaceAll ifOpenMatcher s3
  let s5 := replaceAll (litMatcher elseTag []) s4
  let s6 := replaceAll (litMatcher endifTag []) s5
  let s7 := replaceAll unlessOpenMatcher s6
  let s8 := replaceAll (litMatcher endUnlessTag []) s7
  String.mk s8

/-! ### Generic lemmas about the scan-and-replace engine -/

lemma matchLit_some_append {p s t : List Char} (h : matchLit p s = some t) : s = p ++ t := by
  induction p generalizing s with
  | nil => simpa [matchLit] using h
  | cons c cs ih =>
    cases s with
    | nil => simp [matchLit] at h
    | cons d ds =>
      rw [matchLit] at h
      split at h
      · next heq => subst heq; simpa using ih h
      · exact absurd h (by simp)

lemma matchLit_self (p t : List Char) : matchLit p (p ++ t) = some t := by
  induction p with
  | nil => rfl
  | cons c cs ih => simp [matchLit, ih]

lemma matchLit_length {p s t : List Char} (h : matchLit p s = some t) :
    s.length = p.length + t.length := by
  have := matchLit_some_append h
  subst this; simp

lemma replaceGo_nil (f : List Char → Option (List Char × List Char)) (n : Nat) :
    replaceGo f n [] = [] := by
  cases n <;> rfl

lemma replaceGo_congr {f : List Char → Option (List Char × List Char)} (hf : Shrinking f) :
    ∀ n m s, s.length ≤ n → s.length ≤ m → replaceGo f n s = replaceGo f m s := by
  intro n
  induction n with
  | zero =>
    intro m s hn _
    have : s = [] := List.length_eq_zero.mp (Nat.le_zero.mp hn)
    subst this
    rw [replaceGo_nil, replaceGo_nil]
  | succ n ih =>
    intro m s hn hm
    cases s with
    | nil => rw [replaceGo_nil, replaceGo_nil]
    | cons c r =>
      cases m with
      | zero => simp at hm
      | succ m' =>
        rcases h : f (c :: r) with _ | ⟨rep, t⟩
        · have hr : r.length ≤ n := by simpa using hn
          have hr' : r.length ≤ m' := by simpa using hm
          simp only [replaceGo, h, ih m' r hr hr']
        · have ht := hf _ _ _ h
          have h1 : t.length ≤ n := by
            simp only [List.length_cons] at ht hn; omega
          have h2 : t.length ≤ m' := by
            simp only [List.length_cons] at ht hm; omega
          simp only [replaceGo, h, ih m' t h1 h2]

lemma replaceAll_nil (f : List Char → Option (List Char × List Char)) :
    replaceAll f [] = [] := rfl

lemma replaceAll_cons_some {f : List Char → Option (List Char × List Char)} (hf : Shrinking f)
    {c : Char} {r rep t : List Char} (h : f (c :: r) = some (rep, t)) :
    replaceAll f (c :: r) = rep ++ replaceAll f t := by
  have ht := hf _ _ _ h
  simp only [List.length_cons] at ht
  unfold replaceAll
  rw [show (c :: r).length = r.length + 1 from by simp]
  simp only [replaceGo, h]
  rw [replaceGo_congr hf r.length t.length t (by omega) (by omega)]

lemma replaceAll_cons_none {f : List Char → Option (List Char × List Char)} (_hf : Shrinking f)
    {c : Char} {r : List Char} (h : f (c :: r) = none) :
    replaceAll f (c :: r) = c :: replaceAll f r := by
  unfold replaceAll
  rw [show (c :: r).length = r.length + 1 from by simp]
  simp only [replaceGo, h]

lemma replaceAll_of_no_match {f : List Char → Option (List Char × List Char)} (hf : Shrinking f)
    {s : List Char} (h : ∀ s', s' <:+ s → f s' = none) : replaceAll f s = s := by
  induction s with
  | nil => rfl
  | cons c r ih =>
    rw [replaceAll_cons_none hf (h _ List.suffix_rfl)]
    rw [ih (fun s' hs' => h s' (hs'.trans (List.suffix_cons c r)))]

/-- A matcher that only fires when the string starts with two braces. -/
def FiresOnBraces (f : List Char → Option (List Char × List Char)) : Prop :=
  ∀ s rep t, f s = some (rep, t) → ∃ u, s = '{' :: '{' :: u

lemma replaceAll_append_of_noBrace {f : List Char → Option (List Char × List Char)}
    (hf : Shrinking f) (hdd : FiresOnBraces f) {P : List Char}
    (hP : ∀ c ∈ P, c ≠ '{') (s : List Char) :
    replaceAll f (P ++ s) = P ++ replaceAll f s := by
  induction P with
  | nil => rfl
  | cons c P ih =>
    have hc : c ≠ '{' := hP c (by simp)
    have hnone : f (c :: (P ++ s)) = none := by
      rcases h : f (c :: (P ++ s)) with _ | ⟨rep, t⟩
      · rfl
      · obtain ⟨u, hu⟩ := hdd _ _ _ h
        exact absurd (by simpa using congrArg (fun l => l.headI) hu) hc
    rw [List.cons_append, replaceAll_cons_none hf hnone,
      ih (fun d hd => hP d (by simp [hd]))]
    simp

lemma replaceAll_length_le {f : List Char → Option (List Char × List Char)} (hf : Shrinking f)
    (hne : ∀ s rep t, f s = some (rep, t) → rep.length + t.length ≤ s.length) :
    ∀ s, (replaceAll f s).length ≤ s.length := by
  have key : ∀ n s, s.length ≤ n → (replaceAll f s).length ≤ s.length := by
    intro n
    induction n with
    | zero =>
      intro s hn
      have : s = [] := List.length_eq_zero.mp (Nat.le_zero.mp hn)
      subst this; simp [replaceAll_nil]
    | succ n ih =>
      intro s hn
      cases s with
      | nil => simp [replaceAll_nil]
      | cons c r =>
        rcases h : f (c :: r) with _ | ⟨rep, t⟩
        · rw [replaceAll_cons_none hf h]
          have := ih r (by simpa using hn)
          simp only [List.length_cons]; omega
        · rw [replaceAll_cons_some hf h]
          have h1 := hne _ _ _ h
          have h2 := hf _ _ _ h
          have h3 : t.length ≤ n := by
            simp only [List.length_cons] at h2 hn; omega
          have := ih t h3
          simp only [List.length_append]
          simp only [List.length_cons] at h1 ⊢; omega
  exact fun s => key s.length s le_rfl

lemma replaceAll_eq_or_lt {f : List Char → Option (List Char × List Char)} (hf : Shrinking f)
    (hst : ∀ s rep t, f s = some (rep, t) → rep.length + t.length < s.length) :
    ∀ s, replaceAll f s = s ∨ (replaceAll f s).length < s.length := by
  have hne : ∀ s rep t, f s = some (rep, t) → rep.length + t.length ≤ s.length :=
    fun s rep t h => Nat.le_of_lt (hst s rep t h)
  have key : ∀ n s, s.length ≤ n →
      replaceAll f s = s ∨ (replaceAll f s).length < s.length := by
    intro n
    induction n with
    | zero =>
      intro s hn
      have : s = [] := List.length_eq_zero.mp (Nat.le_zero.mp hn)
      subst this; left; rfl
    | succ n ih =>
      intro s hn
      cases s with
      | nil => left; rfl
      | cons c r =>
        rcases h : f (c :: r) with _ | ⟨rep, t⟩
        · rw [replaceAll_cons_none hf h]
          rcases ih r (by simpa using hn) with heq | hlt
          · left; rw [heq]
          · right; simp only [List.length_cons]; omega
        · right
          rw [replaceAll_cons_some hf h]
          have h1 := hst _ _ _ h
          have h2 := hf _ _ _ h
          have h3 : t.length ≤ n := by
            simp only [List.length_cons] at h2 hn; omega
          have h4 := replaceAll_length_le hf hne t
          simp only [List.length_append]
          simp only [List.length_cons] at h1 ⊢; omega
  exact fun s => key s.length s le_rfl

/-! ### Structural facts about the individual matchers -/

lemma length_takeWhile_add (p : Char → Bool) (l : List Char) :
    (l.takeWhile p).length + (l.dropWhile p).length = l.length := by
  conv_rhs => rw [← List.takeWhile_append_dropWhile p l]
  rw [List.length_append]

lemma length_dropWhile_le (p : Char → Bool) (l : List Char) :
    (l.dropWhile p).length ≤ l.length := by
  have := length_takeWhile_add p l
  omega

lemma scanToEndif_some_eq {s : List Char} {p : List Char × List Char}
    (h : scanToEndif s = some p) : s = p.1 ++ endifTag ++ p.2 := by
  induction s generalizing p with
  | nil => simp [scanToEndif] at h
  | cons c r ih =>
    rw [scanToEndif] at h
    rcases h1 : matchLit endifTag (c :: r) with _ | t <;> simp only [h1] at h
    · obtain ⟨q, hq, hqp⟩ := Option.map_eq_some'.mp h
      subst hqp
      have := ih hq
      simp [this, List.append_assoc]
    · obtain rfl : ([], t) = p := by simpa using h
      simpa using matchLit_some_append h1

lemma scanBody_some_length {s : List Char} {p : List Char × List Char × List Char}
    (h : scanBody s = some p) :
    p.1.length + p.2.1.length + p.2.2.length + 7 ≤ s.length := by
  induction s generalizing p with
  | nil => simp [scanBody] at h
  | cons c r ih =>
    rw [scanBody] at h
    rcases h1 : matchLit elseTag (c :: r) with _ | afterElse <;> simp only [h1] at h
    · rcases h2 : matchLit endifTag (c :: r) with _ | t <;> simp only [h2] at h
      · obtain ⟨q, hq, hqp⟩ := Option.map_eq_some'.mp h
        subst hqp
        have := ih hq
        simp only [List.length_cons] at this ⊢
        omega
      · obtain rfl : (([] : List Char), ([] : List Char), t) = p := by simpa using h
        have := matchLit_length h2
        simp only [endifTag, List.length_cons, List.length_nil] at this
        simp only [List.length_nil, List.length_cons]
        omega
    · rcases h2 : scanToEndif afterElse with _ | q <;> simp only [h2] at h
      · obtain ⟨q', hq, hqp⟩ := Option.map_eq_some'.mp h
        subst hqp
        have := ih hq
        simp only [List.length_cons] at this ⊢
        omega
      · obtain rfl : (([] : List Char), q.1, q.2) = p := by simpa using h
        have e1 := matchLit_length h1
        have e2 := scanToEndif_some_eq h2
        have e3 : afterElse.length = q.1.length + 7 + q.2.length := by
          rw [e2]
          simp only [List.length_append, endifTag, List.length_cons, List.length_nil]
          try omega
        simp only [elseTag, List.length_cons, List.length_nil] at e1
        simp only [List.length_nil, List.length_cons]
        omega

lemma matchWsNameBraces_some {s : List Char} {p : List Char × List Char}
    (h : matchWsNameBraces s = some p) :
    1 ≤ p.1.length ∧ p.1.length + p.2.length + 3 ≤ s.length := by
  cases s with
  | nil => simp [matchWsNameBraces] at h
  | cons c r =>
    rw [matchWsNameBraces] at h
    split at h
    · split at h
      · exact absurd h (by simp)
      · next hne =>
        obtain ⟨t, ht, hp⟩ := Option.map_eq_some'.mp h
        subst hp
        have e1 := length_takeWhile_add isWordChar (r.dropWhile isWsChar)
        have e2 := matchLit_length ht
        have e3 := length_dropWhile_le isWsChar r
        have e4 : 1 ≤ ((r.dropWhile isWsChar).takeWhile isWordChar).length := by
          rcases hq : (r.dropWhile isWsChar).takeWhile isWordChar with _ | ⟨x, xs⟩
          · rw [hq] at hne; simp at hne
          · simp
        simp only [closeBraces, List.length_cons, List.length_nil] at e2
        refine ⟨e4, ?_⟩
        simp only [List.length_cons]
        omega
    · exact absurd h (by simp)

lemma tryMatchVar_bound {key s t : List Char} (h : tryMatchVar key s = some t) :
    t.length + 4 ≤ s.length := by
  rw [tryMatchVar, Option.bind_eq_some] at h
  obtain ⟨r, h1, h⟩ := h
  rw [Option.bind_eq_some] at h
  obtain ⟨r2, h2, h3⟩ := h
  have e1 := matchLit_length h1
  have e2 := matchLit_length h2
  have e3 := matchLit_length h3
  have d1 := length_dropWhile_le isWsChar r
  have d2 := length_dropWhile_le isWsChar r2
  simp only [openBraces, closeBraces, List.length_cons, List.length_nil] at e1 e3
  omega

lemma tryMatchVar_braces {key s t : List Char} (h : tryMatchVar key s = some t) :
    ∃ u, s = '{' :: '{' :: u := by
  rw [tryMatchVar, Option.bind_eq_some] at h
  obtain ⟨r, h1, _⟩ := h
  exact ⟨r, by simpa [openBraces] using matchLit_some_append h1⟩

lemma varMatcher_shrinking (key val : List Char) : Shrinking (varMatcher key val) := by
  intro s rep t h
  simp only [varMatcher, Option.map_eq_some'] at h
  obtain ⟨t', ht, hp⟩ := h
  injection hp with hp1 hp2
  subst hp2
  have := tryMatchVar_bound ht
  omega

lemma varMatcher_braces (key val : List Char) : FiresOnBraces (varMatcher key val) := by
  intro s rep t h
  simp only [varMatcher, Option.map_eq_some'] at h
  obtain ⟨t', ht, _⟩ := h
  exact tryMatchVar_braces ht

lemma tryMatchCond_bound {s : List Char} {p : List Char × List Char × List Char × List Char}
    (h : tryMatchCond s = some p) :
    p.2.1.length + p.2.2.1.length + p.2.2.2.length + 16 ≤ s.length := by
  rw [tryMatchCond, Option.bind_eq_some] at h
  obtain ⟨r, h1, h⟩ := h
  rw [Option.bind_eq_some] at h
  obtain ⟨q, h2, h3⟩ := h
  simp only [Option.map_eq_some'] at h3
  obtain ⟨b, hb, hp⟩ := h3
  subst hp
  have e1 := matchLit_length h1
  have ⟨e2a, e2b⟩ := matchWsNameBraces_some h2
  have e3 := scanBody_some_length hb
  simp only [ifOpenLit, List.length_cons, List.length_nil] at e1
  simp only []
  omega

lemma tryMatchCond_braces {s : List Char} {p : List Char × List Char × List Char × List Char}
    (h : tryMatchCond s = some p) : ∃ u, s = '{' :: '{' :: u := by
  rw [tryMatchCond, Option.bind_eq_some] at h
  obtain ⟨r, h1, _⟩ := h
  exact ⟨'#' :: 'i' :: 'f' :: r, by simpa [ifOpenLit] using matchLit_some_append h1⟩

lemma condMatcher_strict (values : List (String × JsValue)) :
    ∀ s rep t, condMatcher values s = some (rep, t) → rep.length + t.length < s.length := by
  intro s rep t h
  simp only [condMatcher, Option.map_eq_some'] at h
  obtain ⟨p, hp, heq⟩ := h
  have hb := tryMatchCond_bound hp
  injection heq with h1 h2
  subst h2
  split at h1 <;> subst h1 <;> omega

lemma condMatcher_shrinking (values : List (String × JsValue)) :
    Shrinking (condMatcher values) := by
  intro s rep t h
  have := condMatcher_strict values s rep t h
  omega

lemma condMatcher_braces (values : List (String × JsValue)) :
    FiresOnBraces (condMatcher values) := by
  intro s rep t h
  simp only [condMatcher, Option.map_eq_some'] at h
  obtain ⟨p, hp, _⟩ := h
  exact tryMatchCond_braces hp

lemma tryMatchPlaceholder_bound {s t : List Char} (h : tryMatchPlaceholder s = some t) :
    t.length + 5 ≤ s.length := by
  rw [tryMatchPlaceholder, Option.bind_eq_some] at h
  obtain ⟨r, h1, h⟩ := h
  split at h
  · exact absurd h (by simp)
  · next hne =>
    have e1 := matchLit_length h1
    have e3 := matchLit_length h
    have d1 := length_dropWhile_le isWsChar r
    have d2 := length_dropWhile_le isWsChar ((r.dropWhile isWsChar).dropWhile isWordChar)
    have e4 := length_takeWhile_add isWordChar (r.dropWhile isWsChar)
    have e5 : ((r.dropWhile isWsChar).takeWhile isWordChar).length ≠ 0 := by
      intro hz
      exact hne (by simpa [List.isEmpty_iff, List.length_eq_zero] using hz)
    simp only [openBraces, closeBraces, List.length_cons, List.length_nil] at e1 e3
    omega

lemma placeholderMatcher_shrinking : Shrinking placeholderMatcher := by
  intro s rep t h
  simp only [placeholderMatcher, Option.map_eq_some'] at h
  obtain ⟨t', ht, hp⟩ := h
  injection hp with hp1 hp2
  subst hp2
  have := tryMatchPlaceholder_bound ht
  omega

lemma placeholderMatcher_braces : FiresOnBraces placeholderMatcher := by
  intro s rep t h
  simp only [placeholderMatcher, Option.map_eq_some'] at h
  obtain ⟨t', ht, _⟩ := h
  rw [tryMatchPlaceholder, Option.bind_eq_some] at ht
  obtain ⟨r, h1, _⟩ := ht
  exact ⟨r, by simpa [openBraces] using matchLit_some_append h1⟩

lemma tryMatchIfOpen_bound {s t : List Char} (h : tryMatchIfOpen s = some t) :
    t.length + 9 ≤ s.length := by
  rw [tryMatchIfOpen, Option.bind_eq_some] at h
  obtain ⟨r, h1, h⟩ := h
  simp only [Option.map_eq_some'] at h
  obtain ⟨p, hp, hpt⟩ := h
  subst hpt
  have e1 := matchLit_length h1
  have ⟨e2a, e2b⟩ := matchWsNameBraces_some hp
  simp only [ifOpenLit, List.length_cons, List.length_nil] at e1
  omega

lemma tryMatchUnlessOpen_bound {s t : List Char} (h : tryMatchUnlessOpen s = some t) :
    t.length + 13 ≤ s.length := by
  rw [tryMatchUnlessOpen, Option.bind_eq_some] at h
  obtain ⟨r, h1, h⟩ := h
  simp only [Option.map_eq_some'] at h
  obtain ⟨p, hp, hpt⟩ := h
  subst hpt
  have e1 := matchLit_length h1
  have ⟨e2a, e2b⟩ := matchWsNameBraces_some hp
  simp only [unlessOpenLit, List.length_cons, List.length_nil] at e1
  omega

lemma ifOpenMatcher_shrinking : Shrinking ifOpenMatcher := by
  intro s rep t h
  simp only [ifOpenMatcher, Option.map_eq_some'] at h
  obtain ⟨t', ht, hp⟩ := h
  injection hp with hp1 hp2
  subst hp2
  have := tryMatchIfOpen_bound ht
  omega

lemma ifOpenMatcher_braces : FiresOnBraces ifOpenMatcher := by
  intro s rep t h
  simp only [ifOpenMatcher, Option.map_eq_some'] at h
  obtain ⟨t', ht, _⟩ := h
  rw [tryMatchIfOpen, Option.bind_eq_some] at ht
  obtain ⟨r, h1, _⟩ := ht
  exact ⟨'#' :: 'i' :: 'f' :: r, by simpa [ifOpenLit] using matchLit_some_append h1⟩

lemma unlessOpenMatcher_shrinking : Shrinking unlessOpenMatcher := by
  intro s rep t h
  simp only [unlessOpenMatcher, Option.map_eq_some'] at h
  obtain ⟨t', ht, hp⟩ := h
  injection hp with hp1 hp2
  subst hp2
  have := tryMatchUnlessOpen_bound ht
  omega

lemma unlessOpenMatcher_braces : FiresOnBraces unlessOpenMatcher := by
  intro s rep t h
  simp only [unlessOpenMatcher, Option.map_eq_some'] at h
  obtain ⟨t', ht, _⟩ := h
  rw [tryMatchUnlessOpen, Option.bind_eq_some] at ht
  obtain ⟨r, h1, _⟩ := ht
  exact ⟨'#' :: 'u' :: 'n' :: 'l' :: 'e' :: 's' :: 's' :: r,
    by simpa [unlessOpenLit] using matchLit_some_append h1⟩

lemma litMatcher_shrinking (pat rep : List Char) : Shrinking (litMatcher pat rep) := by
  intro s rep' t h
  cases pat with
  | nil => simp [litMatcher] at h
  | cons p ps =>
    simp only [litMatcher, Option.map_eq_some'] at h
    obtain ⟨t', ht, hp⟩ := h
    injection hp with hp1 hp2
    subst hp2
    have := matchLit_length ht
    simp only [List.length_cons] at this
    omega

lemma litMatcher_braces {pat : List Char} (rep : List Char) {u : List Char}
    (hpat : pat = '{' :: '{' :: u) : FiresOnBraces (litMatcher pat rep) := by
  intro s rep' t h
  cases hp : pat with
  | nil => rw [hp] at h; simp [litMatcher] at h
  | cons p ps =>
    rw [hp] at h
    simp only [litMatcher, Option.map_eq_some'] at h
    obtain ⟨t', ht, _⟩ := h
    have := matchLit_some_append ht
    rw [← hp, hpat] at this
    exact ⟨u ++ t', by simpa using this⟩

/-! ### Termination of the conditional fixed-point loop, and idempotence -/

lemma condFixAux_fix (values : List (String × JsValue)) :
    ∀ n s, s.length < n →
      replaceAll (condMatcher values) (condFixAux values n s) = condFixAux values n s := by
  intro n
  induction n with
  | zero => intro s h; omega
  | succ n ih =>
    intro s h
    rw [condFixAux]
    split
    · next heq => rw [heq]
    · next hne =>
      rcases replaceAll_eq_or_lt (condMatcher_shrinking values) (condMatcher_strict values) s
        with heq | hlt
      · exact absurd heq hne
      · exact ih _ (by omega)

/-- A string contains the `{{` delimiter somewhere. -/
def hasOpenBraces : List Char → Bool
  | [] => false
  | c :: r => (matchLit openBraces (c :: r)).isSome || hasOpenBraces r

lemma hasOpenBraces_of_suffix {u s : List Char} (h : ('{' :: '{' :: u) <:+ s) :
    hasOpenBraces s = true := by
  induction s with
  | nil => simpa using h.length_le
  | cons c r ih =>
    rcases List.suffix_cons_iff.mp h with heq | hsuf
    · rw [hasOpenBraces, ← heq]
      simp [matchLit, openBraces]
    · rw [hasOpenBraces, ih hsuf]
      simp

lemma replaceAll_id_of_noBraces {f : List Char → Option (List Char × List Char)}
    (hf : Shrinking f) (hb : FiresOnBraces f) {s : List Char}
    (hs : hasOpenBraces s = false) : replaceAll f s = s := by
  apply replaceAll_of_no_match hf
  intro s' hsuff
  rcases h : f s' with _ | ⟨rep, t⟩
  · rfl
  · obtain ⟨u, hu⟩ := hb _ _ _ h
    subst hu
    rw [hasOpenBraces_of_suffix hsuff] at hs
    exact absurd hs (by simp)

lemma substPass_id_of_noBraces (values : List (String × JsValue)) {acc : List Char}
    (hacc : hasOpenBraces acc = false) :
    values.foldl
        (fun a kv => replaceAll (varMatcher kv.1.toList kv.2.toJsString.toList) a) acc
      = acc := by
  induction values with
  | nil => rfl
  | cons kv vs ih =>
    rw [List.foldl_cons,
      replaceAll_id_of_noBraces (varMatcher_shrinking _ _) (varMatcher_braces _ _) hacc]
    exact ih

lemma stringMk_toList (s : String) : String.mk s.toList = s := rfl

/-- C9: `processTemplate` is idempotent on resolved output: a string that
contains no `{{` delimiter token is returned unchanged by every pass
(simple substitution, the conditional loop, the placeholder substitution
and the cleanup passes), for every values mapping. -/
theorem processTemplate_idempotent_on_resolved (s : String)
    (values : List (String × JsValue)) (h : hasOpenBraces s.toList = false) :
    processTemplate s values = s := by
  simp only [processTemplate]
  rw [substPass_id_of_noBraces values h]
  have hcond : condFixAux values (s.toList.length + 1) s.toList = s.toList := by
    rw [condFixAux]
    rw [replaceAll_id_of_noBraces (condMatcher_shrinking values) (condMatcher_braces values) h]
    simp
  rw [hcond,
    replaceAll_id_of_noBraces placeholderMatcher_shrinking placeholderMatcher_braces h,
    replaceAll_id_of_noBraces ifOpenMatcher_shrinking ifOpenMatcher_braces h,
    replaceAll_id_of_noBraces (litMatcher_shrinking elseTag []) (litMatcher_braces [] rfl) h,
    replaceAll_id_of_noBraces (litMatcher_shrinking endifTag []) (litMatcher_braces [] rfl) h,
    replaceAll_id_of_noBraces unlessOpenMatcher_shrinking unlessOpenMatcher_braces h,
    replaceAll_id_of_noBraces (litMatcher_shrinking endUnlessTag []) (litMatcher_braces [] rfl) h,
    stringMk_toList]

/-- Witness for C9 at a concrete resolved string and values mapping. -/
theorem processTemplate_idempotent_on_resolved_witness :
    hasOpenBraces ("Hello Ann!").toList = false ∧
      processTemplate "Hello Ann!" [("name", .vStr "Ann")] = "Hello Ann!" :=
  ⟨by decide, processTemplate_idempotent_on_resolved "Hello Ann!" _ (by decide)⟩

/-- C10: the fixed-point loop of `processTemplate` terminates on every
input: one conditional-substitution pass either returns the string
unchanged (so the `while` loop exits) or returns a strictly shorter string
(each matched block is replaced by one of its proper sub-branches), and
consequently the fuelled loop `condFixAux` with fuel `length + 1` reaches
an actual fixed point of the pass, for every template and values mapping. -/
theorem condLoop_terminates (values : List (String × JsValue)) (s : List Char) :
    (replaceAll (condMatcher values) s = s ∨
      (replaceAll (condMatcher values) s).length < s.length) ∧
    replaceAll (condMatcher values) (condFixAux values (s.length + 1) s) =
      condFixAux values (s.length + 1) s :=
  ⟨replaceAll_eq_or_lt (condMatcher_shrinking values) (condMatcher_strict values) s,
    condFixAux_fix values (s.length + 1) s (by omega)⟩

/-- C1: concrete evaluation of `processTemplate` on the nested-conditional
template `{{#if a}}{{#if b}}X{{else}}Y{{/if}}{{else}}Z{{/if}}`.  The lazy
optional else-group of the conditional regex associates the outer `{{else}}`
with the inner `{{#if}}`, so with `a=true, b=false` the code returns `"Z"`
(the claim expects `"Y"`), and with `a=false` (with `b` absent or in either
state) it returns `"Y[___]Z"` (the claim expects `"Z"`). -/
theorem nested_conditional_eval :
    processTemplate "\x7b\x7b#if a\x7d\x7d\x7b\x7b#if b\x7d\x7dX\x7b\x7belse\x7d\x7dY\x7b\x7b/if\x7d\x7d\x7b\x7belse\x7d\x7dZ\x7b\x7b/if\x7d\x7d"
        [("a", .vBool true), ("b", .vBool false)] = "Z" ∧
    processTemplate "\x7b\x7b#if a\x7d\x7d\x7b\x7b#if b\x7d\x7dX\x7b\x7belse\x7d\x7dY\x7b\x7b/if\x7d\x7d\x7b\x7belse\x7d\x7dZ\x7b\x7b/if\x7d\x7d"
        [("a", .vBool false), ("b", .vBool false)] = "Y[___]Z" ∧
    processTemplate "\x7b\x7b#if a\x7d\x7d\x7b\x7b#if b\x7d\x7dX\x7b\x7belse\x7d\x7dY\x7b\x7b/if\x7d\x7d\x7b\x7belse\x7d\x7dZ\x7b\x7b/if\x7d\x7d"
        [("a", .vBool false), ("b", .vBool true)] = "Y[___]Z" ∧
    processTemplate "\x7b\x7b#if a\x7d\x7d\x7b\x7b#if b\x7d\x7dX\x7b\x7belse\x7d\x7dY\x7b\x7b/if\x7d\x7d\x7b\x7belse\x7d\x7dZ\x7b\x7b/if\x7d\x7d"
        [("a", .vBool false)] = "Y[___]Z" := by
  refine ⟨?_, ?_, ?_, ?_⟩ <;> decide

/-- C6: concrete scenario: template `Hello {{#if vip}}VIP {{/if}}{{name}}!`
gives `Hello VIP Ann!` with `{name: "Ann", vip: true}`, `Hello Ann!` with
`{name: "Ann", vip: false}`, and `Hello VIP [___]!` with only `{vip: true}`
(the unresolved `{{name}}` becomes the `[___]` placeholder). -/
theorem concrete_scenario_eval :
    processTemplate "Hello \x7b\x7b#if vip\x7d\x7dVIP \x7b\x7b/if\x7d\x7d\x7b\x7bname\x7d\x7d!"
        [("name", .vStr "Ann"), ("vip", .vBool true)] = "Hello VIP Ann!" ∧
    processTemplate "Hello \x7b\x7b#if vip\x7d\x7dVIP \x7b\x7b/if\x7d\x7d\x7b\x7bname\x7d\x7d!"
        [("name", .vStr "Ann"), ("vip", .vBool false)] = "Hello Ann!" ∧
    processTemplate "Hello \x7b\x7b#if vip\x7d\x7dVIP \x7b\x7b/if\x7d\x7d\x7b\x7bname\x7d\x7d!"
        [("vip", .vBool true)] = "Hello VIP [___]!" := by
  refine ⟨?_, ?_, ?_⟩ <;> decide

/-! ### Character-class facts -/

lemma wordChar_ne_lbrace {c : Char} (h : isWordChar c = true) : c ≠ '{' := by
  intro heq
  rw [heq] at h
  exact absurd h (by decide)

lemma wordChar_ne_rbrace {c : Char} (h : isWordChar c = true) : c ≠ '}' := by
  intro heq
  rw [heq] at h
  exact absurd h (by decide)

lemma wordChar_not_ws {c : Char} (h : isWordChar c = true) : isWsChar c = false := by
  rcases hw : isWsChar c with _ | _
  · rfl
  · exfalso
    simp only [isWsChar, Bool.or_eq_true, decide_eq_true_eq] at hw
    rcases hw with ((((hw | hw) | hw) | hw) | hw) | hw <;> rw [hw] at h <;>
      exact absurd h (by decide)

lemma noLBrace_hasOpenBraces_false {s : List Char} (h : ∀ c ∈ s, c ≠ '{') :
    hasOpenBraces s = false := by
  induction s with
  | nil => rfl
  | cons c r ih =>
    rw [hasOpenBraces]
    have h1 : matchLit openBraces (c :: r) = none := by
      have : c ≠ '{' := h c (by simp)
      simp [matchLit, openBraces, Ne.symm this]
    rw [h1, ih (fun d hd => h d (by simp [hd]))]
    rfl

/-! ### Generic non-firing positions -/

lemma none_of_head_ne {f : List Char → Option (List Char × List Char)}
    (hb : FiresOnBraces f) {c : Char} {s : List Char} (hc : c ≠ '{') :
    f (c :: s) = none := by
  rcases h : f (c :: s) with _ | ⟨rep, t⟩
  · rfl
  · obtain ⟨u, hu⟩ := hb _ _ _ h
    injection hu with h1 _
    exact absurd h1 hc

lemma none_of_second_ne {f : List Char → Option (List Char × List Char)}
    (hb : FiresOnBraces f) {c d : Char} {s : List Char} (hd : d ≠ '{') :
    f (c :: d :: s) = none := by
  rcases h : f (c :: d :: s) with _ | ⟨rep, t⟩
  · rfl
  · obtain ⟨u, hu⟩ := hb _ _ _ h
    injection hu with _ h2
    injection h2 with h2 _
    exact absurd h2 hd

/-! ### The simple-variable pass does not fire inside a conditional block -/

/-- The tag `{{#if name}}` with a single space, as in the claim's template. -/
def iftagOf (name : List Char) : List Char := ifOpenLit ++ ' ' :: name ++ closeBraces

/-- A conditional block with a nonempty-word name, brace-free branch
contents and an optional else-branch. -/
def condBlock (name A : List Char) : Option (List Char) → List Char
  | some B => iftagOf name ++ A ++ elseTag ++ B ++ endifTag
  | none => iftagOf name ++ A ++ endifTag

lemma varMatcher_none_braces_nonword {key val rest : List Char} {c : Char}
    (hkey : key ≠ []) (hw : ∀ d ∈ key, isWordChar d = true)
    (hcw : isWordChar c = false) (hcs : isWsChar c = false) :
    varMatcher key val ('{' :: '{' :: c :: rest) = none := by
  rcases key with _ | ⟨k0, ks⟩
  · exact absurd rfl hkey
  · have hk0 : isWordChar k0 = true := hw k0 (by simp)
    have hne : k0 ≠ c := by
      intro heq
      rw [heq] at hk0
      exact absurd (hk0.symm.trans hcw) (by simp)
    simp [varMatcher, tryMatchVar, matchLit, openBraces, List.dropWhile_cons, hcs, hne]

lemma varMatcher_none_elseTag {key val rest : List Char}
    (hw : ∀ d ∈ key, isWordChar d = true) (hne : key ≠ ['e', 'l', 's', 'e']) :
    varMatcher key val (elseTag ++ rest) = none := by
  have hrw : elseTag ++ rest = '{' :: '{' :: 'e' :: 'l' :: 's' :: 'e' :: '}' :: '}' :: rest := rfl
  rw [hrw]
  simp only [varMatcher, tryMatchVar, matchLit, openBraces, if_pos rfl,
    Option.bind_eq_none, Option.map_eq_none']
  have hde : isWsChar 'e' = false := by decide
  have hdl : isWsChar 'l' = false := by decide
  have hds : isWsChar 's' = false := by decide
  rcases key with _ | ⟨c1, k⟩
  · -- empty key: `}}` must match at `e...`, fails
    simp [matchLit, List.dropWhile_cons, hde, closeBraces]
  by_cases h1 : c1 = 'e'
  case neg => simp [matchLit, List.dropWhile_cons, hde, h1]
  subst h1
  rcases k with _ | ⟨c2, k⟩
  · simp [matchLit, List.dropWhile_cons, hde, hdl, closeBraces]
  by_cases h2 : c2 = 'l'
  case neg => simp [matchLit, List.dropWhile_cons, hde, h2]
  subst h2
  rcases k with _ | ⟨c3, k⟩
  · simp [matchLit, List.dropWhile_cons, hde, hdl, hds, closeBraces]
  by_cases h3 : c3 = 's'
  case neg => simp [matchLit, List.dropWhile_cons, hde, hdl, h3]
  subst h3
  rcases k with _ | ⟨c4, k⟩
  · simp [matchLit, List.dropWhile_cons, hde, hdl, hds, closeBraces]
  by_cases h4 : c4 = 'e'
  case neg => simp [matchLit, List.dropWhile_cons, hde, hdl, hds, h4]
  subst h4
  rcases k with _ | ⟨c5, k⟩
  · exact absurd rfl hne
  have hc5 : isWordChar c5 = true := hw c5 (by simp)
  have hne5 : c5 ≠ '}' := wordChar_ne_rbrace hc5
  simp [matchLit, List.dropWhile_cons, hde, hdl, hds, hne5]

lemma replaceAll_var_skip_iftag {key val name X : List Char}
    (hkey : key ≠ []) (hw : ∀ d ∈ key, isWordChar d = true)
    (hname : ∀ d ∈ name, isWordChar d = true) :
    replaceAll (varMatcher key val) (iftagOf name ++ X) =
      iftagOf name ++ replaceAll (varMatcher key val) X := by
  have hshr := varMatcher_shrinking key val
  have hbr := varMatcher_braces key val
  have hrw : iftagOf name ++ X =
      '{' :: '{' :: '#' :: 'i' :: 'f' :: ' ' :: (name ++ '}' :: '}' :: X) := by
    simp [iftagOf, ifOpenLit, closeBraces, List.append_assoc]
  rw [hrw]
  have h0 : varMatcher key val
      ('{' :: '{' :: '#' :: ('i' :: 'f' :: ' ' :: (name ++ '}' :: '}' :: X))) = none :=
    varMatcher_none_braces_nonword hkey hw (by decide) (by decide)
  rw [replaceAll_cons_none hshr h0,
    replaceAll_cons_none hshr (none_of_second_ne hbr (by decide))]
  have h2 : ('#' :: 'i' :: 'f' :: ' ' :: (name ++ '}' :: '}' :: X)) =
      ['#', 'i', 'f', ' '] ++ (name ++ (['}', '}'] ++ X)) := by simp
  rw [h2, replaceAll_append_of_noBrace hshr hbr (by decide),
    replaceAll_append_of_noBrace hshr hbr (fun d hd => wordChar_ne_lbrace (hname d hd)),
    replaceAll_append_of_noBrace hshr hbr (by decide)]
  simp [iftagOf, ifOpenLit, closeBraces, List.append_assoc]

lemma replaceAll_var_skip_elseTag {key val X : List Char}
    (hw : ∀ d ∈ key, isWordChar d = true) (hne : key ≠ ['e', 'l', 's', 'e']) :
    replaceAll (varMatcher key val) (elseTag ++ X) =
      elseTag ++ replaceAll (varMatcher key val) X := by
  have hshr := varMatcher_shrinking key val
  have hbr := varMatcher_braces key val
  have h0 : varMatcher key val ('{' :: '{' :: 'e' :: 'l' :: 's' :: 'e' :: '}' :: '}' :: X) =
      none := varMatcher_none_elseTag hw hne
  have hrw : elseTag ++ X = '{' :: '{' :: 'e' :: 'l' :: 's' :: 'e' :: '}' :: '}' :: X := rfl
  rw [hrw, replaceAll_cons_none hshr h0,
    replaceAll_cons_none hshr (none_of_second_ne hbr (by decide))]
  have h2 : ('e' :: 'l' :: 's' :: 'e' :: '}' :: '}' :: X) =
      ['e', 'l', 's', 'e', '}', '}'] ++ X := rfl
  rw [h2, replaceAll_append_of_noBrace hshr hbr (by decide)]
  rfl

lemma replaceAll_var_skip_endifTag {key val X : List Char}
    (hkey : key ≠ []) (hw : ∀ d ∈ key, isWordChar d = true) :
    replaceAll (varMatcher key val) (endifTag ++ X) =
      endifTag ++ replaceAll (varMatcher key val) X := by
  have hshr := varMatcher_shrinking key val
  have hbr := varMatcher_braces key val
  have h0 : varMatcher key val ('{' :: '{' :: '/' :: ('i' :: 'f' :: '}' :: '}' :: X)) = none :=
    varMatcher_none_braces_nonword hkey hw (by decide) (by decide)
  have hrw : endifTag ++ X = '{' :: '{' :: '/' :: ('i' :: 'f' :: '}' :: '}' :: X) := rfl
  rw [hrw, replaceAll_cons_none hshr h0,
    replaceAll_cons_none hshr (none_of_second_ne hbr (by decide))]
  have h2 : ('/' :: 'i' :: 'f' :: '}' :: '}' :: X) = ['/', 'i', 'f', '}', '}'] ++ X := rfl
  rw [h2, replaceAll_append_of_noBrace hshr hbr (by decide)]
  rfl

/-- The simple-variable pass leaves a conditional-block template unchanged:
no `{{key}}` reference can match inside `{{#if name}}A{{else}}B{{/if}}`
(or the else-less variant) surrounded by brace-free text, for any
word-character key other than `else`. -/
lemma replaceAll_var_template {key val name A P S : List Char} {ob : Option (List Char)}
    (hkey : key ≠ []) (hw : ∀ d ∈ key, isWordChar d = true)
    (hne : key ≠ ['e', 'l', 's', 'e'])
    (hname : ∀ d ∈ name, isWordChar d = true)
    (hA : ∀ c ∈ A, c ≠ '{') (hB : ∀ B' ∈ ob, ∀ c ∈ B', c ≠ '{')
    (hP : ∀ c ∈ P, c ≠ '{') (hS : ∀ c ∈ S, c ≠ '{') :
    replaceAll (varMatcher key val) (P ++ condBlock name A ob ++ S) =
      P ++ condBlock name A ob ++ S := by
  have hshr := varMatcher_shrinking key val
  have hbr := varMatcher_braces key val
  have hSid : replaceAll (varMatcher key val) S = S :=
    replaceAll_id_of_noBraces hshr hbr (noLBrace_hasOpenBraces_false hS)
  cases ob with
  | some B =>
    have hrw : P ++ condBlock name A (some B) ++ S =
        P ++ (iftagOf name ++ (A ++ (elseTag ++ (B ++ (endifTag ++ S))))) := by
      simp [condBlock, List.append_assoc]
    rw [hrw, replaceAll_append_of_noBrace hshr hbr hP,
      replaceAll_var_skip_iftag hkey hw hname,
      replaceAll_append_of_noBrace hshr hbr hA,
      replaceAll_var_skip_elseTag hw hne,
      replaceAll_append_of_noBrace hshr hbr (hB B (by simp)),
      replaceAll_var_skip_endifTag hkey hw, hSid]
  | none =>
    have hrw : P ++ condBlock name A none ++ S =
        P ++ (iftagOf name ++ (A ++ (endifTag ++ S))) := by
      simp [condBlock, List.append_assoc]
    rw [hrw, replaceAll_append_of_noBrace hshr hbr hP,
      replaceAll_var_skip_iftag hkey hw hname,
      replaceAll_append_of_noBrace hshr hbr hA,
      replaceAll_var_skip_endifTag hkey hw, hSid]

/-- The whole simple-substitution fold leaves the template unchanged. -/
lemma substPass_template (values : List (String × JsValue)) {name A P S : List Char}
    {ob : Option (List Char)}
    (hkeys : ∀ kv ∈ values, kv.1.toList ≠ [] ∧ (∀ c ∈ kv.1.toList, isWordChar c = true) ∧
      kv.1 ≠ "else")
    (hname : ∀ d ∈ name, isWordChar d = true)
    (hA : ∀ c ∈ A, c ≠ '{') (hB : ∀ B' ∈ ob, ∀ c ∈ B', c ≠ '{')
    (hP : ∀ c ∈ P, c ≠ '{') (hS : ∀ c ∈ S, c ≠ '{') :
    values.foldl
        (fun a kv => replaceAll (varMatcher kv.1.toList kv.2.toJsString.toList) a)
        (P ++ condBlock name A ob ++ S)
      = P ++ condBlock name A ob ++ S := by
  induction values with
  | nil => rfl
  | cons kv vs ih =>
    obtain ⟨hk1, hk2, hk3⟩ := hkeys kv (by simp)
    have hk3' : kv.1.toList ≠ ['e', 'l', 's', 'e'] := by
      intro heq
      apply hk3
      have : kv.1.toList = ("else" : String).toList := heq
      exact String.toList_inj.mp this
    rw [List.foldl_cons,
      replaceAll_var_template hk1 hk2 hk3' hname hA hB hP hS]
    exact ih (fun kv' h' => hkeys kv' (by simp [h']))

/-! ### Computing the conditional pass on a single block -/

lemma matchLit_none_of_head_ne {p : Char} {ps : List Char} {c : Char} {s : List Char}
    (h : p ≠ c) : matchLit (p :: ps) (c :: s) = none := by
  simp [matchLit, h]

lemma scanToEndif_append_noBrace {B : List Char} (hB : ∀ c ∈ B, c ≠ '{')
    (s : List Char) :
    scanToEndif (B ++ s) = (scanToEndif s).map (fun p => (B ++ p.1, p.2)) := by
  induction B with
  | nil => cases h : scanToEndif s <;> simp [h]
  | cons c B ih =>
    have hc : c ≠ '{' := hB c (by simp)
    have h1 : matchLit endifTag (c :: (B ++ s)) = none :=
      matchLit_none_of_head_ne (fun heq => hc heq.symm)
    rw [List.cons_append, scanToEndif]
    simp only [h1, ih (fun d hd => hB d (by simp [hd]))]
    cases h : scanToEndif s <;> simp [h]

lemma scanToEndif_at_endif (s : List Char) : scanToEndif (endifTag ++ s) = some ([], s) := by
  rw [show endifTag ++ s = '{' :: ('{' :: '/' :: 'i' :: 'f' :: '}' :: '}' :: s) from rfl,
    scanToEndif]
  simp only [show matchLit endifTag ('{' :: '{' :: '/' :: 'i' :: 'f' :: '}' :: '}' :: s) = some s
    from matchLit_self endifTag s]

lemma scanBody_append_noBrace {A : List Char} (hA : ∀ c ∈ A, c ≠ '{') (s : List Char) :
    scanBody (A ++ s) = (scanBody s).map (fun p => (A ++ p.1, p.2.1, p.2.2)) := by
  induction A with
  | nil => cases h : scanBody s <;> simp [h]
  | cons c A ih =>
    have hc : c ≠ '{' := hA c (by simp)
    have h1 : matchLit elseTag (c :: (A ++ s)) = none :=
      matchLit_none_of_head_ne (fun heq => hc heq.symm)
    have h2 : matchLit endifTag (c :: (A ++ s)) = none :=
      matchLit_none_of_head_ne (fun heq => hc heq.symm)
    rw [List.cons_append, scanBody]
    simp only [h1, h2, ih (fun d hd => hA d (by simp [hd]))]
    cases h : scanBody s <;> simp [h]

lemma scanBody_at_elseTag {X : List Char} {p : List Char × List Char}
    (h : scanToEndif X = some p) :
    scanBody (elseTag ++ X) = some ([], p.1, p.2) := by
  rw [show elseTag ++ X = '{' :: ('{' :: 'e' :: 'l' :: 's' :: 'e' :: '}' :: '}' :: X) from rfl,
    scanBody]
  simp only [show matchLit elseTag ('{' :: '{' :: 'e' :: 'l' :: 's' :: 'e' :: '}' :: '}' :: X) =
    some X from matchLit_self elseTag X, h]

lemma scanBody_at_endifTag (s : List Char) : scanBody (endifTag ++ s) = some ([], [], s) := by
  rw [show endifTag ++ s = '{' :: ('{' :: '/' :: 'i' :: 'f' :: '}' :: '}' :: s) from rfl,
    scanBody]
  simp only [show matchLit elseTag ('{' :: '{' :: '/' :: 'i' :: 'f' :: '}' :: '}' :: s) = none
    from by simp [matchLit, elseTag],
    show matchLit endifTag ('{' :: '{' :: '/' :: 'i' :: 'f' :: '}' :: '}' :: s) = some s
    from matchLit_self endifTag s]

lemma matchWsNameBraces_at {name X : List Char} (hn : name ≠ [])
    (hw : ∀ d ∈ name, isWordChar d = true) :
    matchWsNameBraces (' ' :: (name ++ '}' :: '}' :: X)) = some (name, X) := by
  rcases name with _ | ⟨n0, ns⟩
  · exact absurd rfl hn
  have hword : ∀ d ∈ n0 :: ns, isWordChar d = true := hw
  have hdw : (((n0 :: ns) ++ '}' :: '}' :: X).dropWhile isWsChar) =
      (n0 :: ns) ++ '}' :: '}' :: X := by
    rw [List.cons_append, List.dropWhile_cons]
    rw [wordChar_not_ws (hword n0 (by simp))]
    simp
  have hrb : isWordChar '}' = false := by decide
  have htk : (((n0 :: ns) ++ '}' :: '}' :: X).takeWhile isWordChar) = n0 :: ns := by
    rw [List.takeWhile_append_of_pos hword, List.takeWhile_cons]
    simp [hrb]
  have hdk : (((n0 :: ns) ++ '}' :: '}' :: X).dropWhile isWordChar) = '}' :: '}' :: X := by
    rw [List.dropWhile_append_of_pos hword, List.dropWhile_cons]
    simp [hrb]
  rw [matchWsNameBraces]
  rw [show isWsChar ' ' = true from by decide]
  simp only [if_true, hdw, htk, hdk]
  rw [show matchLit closeBraces ('}' :: '}' :: X) = some X from matchLit_self closeBraces X]
  simp

lemma tryMatchCond_at_block {name A S : List Char} {ob : Option (List Char)}
    (hn : name ≠ []) (hw : ∀ d ∈ name, isWordChar d = true)
    (hA : ∀ c ∈ A, c ≠ '{') (hB : ∀ B' ∈ ob, ∀ c ∈ B', c ≠ '{') :
    tryMatchCond (condBlock name A ob ++ S) =
      some (name, A, ob.getD [], S) := by
  have hhead : condBlock name A ob ++ S =
      ifOpenLit ++ (' ' :: (name ++ '}' :: '}' ::
        (A ++ (match ob with
          | some B => elseTag ++ (B ++ (endifTag ++ S))
          | none => endifTag ++ S)))) := by
    cases ob <;> simp [condBlock, iftagOf, closeBraces, List.append_assoc]
  rw [tryMatchCond, hhead, matchLit_self, Option.some_bind,
    matchWsNameBraces_at hn hw, Option.some_bind]
  cases ob with
  | some B =>
    have hend : scanToEndif (B ++ (endifTag ++ S)) = some (B, S) := by
      rw [scanToEndif_append_noBrace (hB B (by simp)), scanToEndif_at_endif]
      simp
    simp only [scanBody_append_noBrace hA, scanBody_at_elseTag hend]
    simp
  | none =>
    simp only [scanBody_append_noBrace hA, scanBody_at_endifTag]
    simp

lemma condMatcher_at_block (values : List (String × JsValue)) {name A P S : List Char}
    {ob : Option (List Char)}
    (hn : name ≠ []) (hw : ∀ d ∈ name, isWordChar d = true)
    (hA : ∀ c ∈ A, c ≠ '{') (hB : ∀ B' ∈ ob, ∀ c ∈ B', c ≠ '{')
    (hP : ∀ c ∈ P, c ≠ '{') (hS : ∀ c ∈ S, c ≠ '{') :
    replaceAll (condMatcher values) (P ++ condBlock name A ob ++ S) =
      P ++ (if isTruthy (values.lookup (String.mk name)) then A else ob.getD []) ++ S := by
  have hshr := condMatcher_shrinking values
  have hbr := condMatcher_braces values
  have hmatch : condMatcher values (condBlock name A ob ++ S) =
      some ((if isTruthy (values.lookup (String.mk name)) then A else ob.getD []), S) := by
    rw [condMatcher, tryMatchCond_at_block hn hw hA hB]
    rfl
  have hblock : ∃ c r, condBlock name A ob ++ S = c :: r := by
    cases ob <;> exact ⟨'{', _, rfl⟩
  obtain ⟨c, r, hcr⟩ := hblock
  rw [List.append_assoc, replaceAll_append_of_noBrace hshr hbr hP, hcr,
    replaceAll_cons_some hshr (hcr ▸ hmatch),
    replaceAll_id_of_noBraces hshr hbr (noLBrace_hasOpenBraces_false hS)]
  simp [List.append_assoc]

lemma condFixAux_of_fixed {values : List (String × JsValue)} {s : List Char}
    (h : replaceAll (condMatcher values) s = s) :
    ∀ n, 1 ≤ n → condFixAux values n s = s := by
  intro n hn
  cases n with
  | zero => omega
  | succ m =>
    rw [condFixAux]
    simp [h]

lemma toList_mk (l : List Char) : (String.mk l).toList = l := rfl

/-- C5: a single non-nested conditional block `{{#if name}}A{{else}}B{{/if}}`
(or without an else branch), surrounded by brace-free text, is resolved by
`processTemplate` to branch A exactly when `values[name]` is defined and is
not `false`, not the empty string and not the number 0; otherwise to branch
B, and to the empty string when no else branch is present.  Keys are
word-character variable names other than `else`, as produced by the data
model. -/
theorem single_conditional_block (name A P S : List Char) (ob : Option (List Char))
    (values : List (String × JsValue))
    (hn : name ≠ []) (hw : ∀ d ∈ name, isWordChar d = true)
    (hA : ∀ c ∈ A, c ≠ '{') (hB : ∀ B' ∈ ob, ∀ c ∈ B', c ≠ '{')
    (hP : ∀ c ∈ P, c ≠ '{') (hS : ∀ c ∈ S, c ≠ '{')
    (hkeys : ∀ kv ∈ values, kv.1.toList ≠ [] ∧ (∀ c ∈ kv.1.toList, isWordChar c = true) ∧
      kv.1 ≠ "else") :
    processTemplate (String.mk (P ++ condBlock name A ob ++ S)) values =
      String.mk (P ++ (if isTruthy (values.lookup (String.mk name)) then A
        else ob.getD []) ++ S) ∧
    (isTruthy (values.lookup (String.mk name)) = true ↔
      ∃ v, values.lookup (String.mk name) = some v ∧
        v ≠ JsValue.vBool false ∧ v ≠ JsValue.vStr "" ∧ v ≠ JsValue.vNum 0) := by
  constructor
  · have hbranchNB : ∀ c ∈ (if isTruthy (values.lookup (String.mk name)) then A
        else ob.getD []), c ≠ '{' := by
      split
      · exact hA
      · cases ob with
        | none => simp
        | some B => exact hB B (by simp)
    have hres : ∀ c ∈ P ++ (if isTruthy (values.lookup (String.mk name)) then A
        else ob.getD []) ++ S, c ≠ '{' := by
      intro c hc
      rcases List.mem_append.mp hc with hc1 | hc2
      · rcases List.mem_append.mp hc1 with hc3 | hc4
        · exact hP c hc3
        · exact hbranchNB c hc4
      · exact hS c hc2
    have hpass1 := condMatcher_at_block values hn hw hA hB hP hS
    have hlen : (P ++ (if isTruthy (values.lookup (String.mk name)) then A
        else ob.getD []) ++ S).length <
        (P ++ condBlock name A ob ++ S).length := by
      cases ob with
      | none =>
        split <;>
          simp [condBlock, iftagOf, ifOpenLit, closeBraces, endifTag,
            List.length_append] <;> omega
      | some B =>
        split <;>
          simp [condBlock, iftagOf, ifOpenLit, closeBraces, elseTag, endifTag,
            List.length_append] <;> omega
    have hfix : condFixAux values ((P ++ condBlock name A ob ++ S).length + 1)
        (P ++ condBlock name A ob ++ S) =
        P ++ (if isTruthy (values.lookup (String.mk name)) then A else ob.getD []) ++ S := by
      rw [condFixAux]
      simp only [hpass1]
      rw [if_neg (by
        intro heq
        have := congrArg List.length heq
        omega)]
      apply condFixAux_of_fixed
      · exact replaceAll_id_of_noBraces (condMatcher_shrinking values)
          (condMatcher_braces values) (noLBrace_hasOpenBraces_false hres)
      · omega
    have hOB := noLBrace_hasOpenBraces_false hres
    simp only [processTemplate, toList_mk]
    rw [substPass_template values hkeys hw hA hB hP hS, hfix,
      replaceAll_id_of_noBraces placeholderMatcher_shrinking placeholderMatcher_braces hOB,
      replaceAll_id_of_noBraces ifOpenMatcher_shrinking ifOpenMatcher_braces hOB,
      replaceAll_id_of_noBraces (litMatcher_shrinking elseTag []) (litMatcher_braces [] rfl) hOB,
      replaceAll_id_of_noBraces (litMatcher_shrinking endifTag []) (litMatcher_braces [] rfl) hOB,
      replaceAll_id_of_noBraces unlessOpenMatcher_shrinking unlessOpenMatcher_braces hOB,
      replaceAll_id_of_noBraces (litMatcher_shrinking endUnlessTag [])
        (litMatcher_braces [] rfl) hOB]
  · cases h : values.lookup (String.mk name) with
    | none => simp [isTruthy]
    | some v =>
      cases v with
      | vStr s => simp [isTruthy]
      | vNum n => simp [isTruthy]
      | vBool b => cases b <;> simp [isTruthy]

/-- Witness for C5 at a concrete block, values mapping and surroundings. -/
theorem single_conditional_block_witness :
    (['v', 'i', 'p'] : List Char) ≠ [] ∧
    processTemplate (String.mk (['p'] ++ condBlock ['v', 'i', 'p'] ['y'] (some ['n']) ++ ['!']))
        [("vip", JsValue.vStr "1")] =
      String.mk (['p'] ++ (if isTruthy ([("vip", JsValue.vStr "1")].lookup
        (String.mk ['v', 'i', 'p'])) then ['y'] else (some ['n']).getD []) ++ ['!']) :=
  ⟨by decide,
    (single_conditional_block ['v', 'i', 'p'] ['y'] ['p'] ['!'] (some ['n'])
      [("vip", JsValue.vStr "1")] (by decide) (by decide) (by decide)
      (by intro B' hB' c hc; simp at hB'; subst hB'; simp at hc; subst hc; decide)
      (by decide) (by decide)
      (by
        intro kv hkv
        simp at hkv
        subst hkv
        refine ⟨by decide, by decide, by decide⟩)).1⟩

/-! ### Validation (`validateVariables`, src/unnamed/part_005 lines 348-403) -/

/-- The `validation` sub-object of a template variable. -/
structure ValidationSpec : Type where
  pattern : Option String := none
  min : Option Int := none
  max : Option Int := none
  minLength : Option Nat := none
  maxLength : Option Nat := none
  deriving DecidableEq, Repr

/-- A template variable, restricted to the fields `validateVariables`
reads (`name`, `label`, `required`, `validation`; the source's `type`,
`options`, `helpText` fields are not consulted by this function). -/
structure TemplateVariable : Type where
  name : String
  label : String
  required : Bool
  validation : Option ValidationSpec := none
  deriving DecidableEq, Repr

/-- JS object assignment `errors[k] = v` on an association-list model:
overwrite an existing binding in place, else append. -/
def setKey (m : List (String × String)) (k v : String) : List (String × String) :=
  if m.any (fun p => p.1 == k) then m.map (fun p => if p.1 == k then (k, v) else p)
  else m ++ [(k, v)]

/-- `value === undefined || value === ''`. -/
def isEmptyVal : Option JsValue → Bool
  | none => true
  | some (.vStr s) => s == ""
  | some _ => false

/-- `typeof value === 'string'` projection. -/
def asStr : Option JsValue → Option String
  | some (.vStr s) => some s
  | _ => none

/-- `typeof value === 'number'` projection. -/
def asNum : Option JsValue → Option Int
  | some (.vNum n) => some n
  | _ => none

/-- The pattern check (string values only; an empty pattern string is falsy
in JS and skips the check).  The JS `RegExp` engine is abstracted as the
`regexTest` parameter. -/
def checkPattern (regexTest : String → String → Bool) (v : TemplateVariable)
    (vd : ValidationSpec) (value : Option JsValue) (errs : List (String × String)) :
    List (String × String) :=
  match vd.pattern with
  | none => errs
  | some pat =>
    match asStr value with
    | none => errs
    | some s =>
      if pat = "" then errs
      else if regexTest pat s then errs
      else setKey errs v.name (v.label ++ " format is invalid")

/-- `min !== undefined && value < min`. -/
def checkMin (v : TemplateVariable) (vd : ValidationSpec) (n : Int)
    (errs : List (String × String)) : List (String × String) :=
  match vd.min with
  | some mn =>
    if n < mn then setKey errs v.name (v.label ++ " must be at least " ++ toString mn)
    else errs
  | none => errs

/-- `max !== undefined && value > max`. -/
def checkMax (v : TemplateVariable) (vd : ValidationSpec) (n : Int)
    (errs : List (String × String)) : List (String × String) :=
  match vd.max with
  | some mx =>
    if n > mx then setKey errs v.name (v.label ++ " must be at most " ++ toString mx)
    else errs
  | none => errs

/-- The numeric range checks (number values only). -/
def checkRange (v : TemplateVariable) (vd : ValidationSpec) (value : Option JsValue)
    (errs : List (String × String)) : List (String × String) :=
  match asNum value with
  | some n => checkMax v vd n (checkMin v vd n errs)
  | none => errs

/-- `minLength !== undefined && value.length < minLength`. -/
def checkMinLen (v : TemplateVariable) (vd : ValidationSpec) (s : String)
    (errs : List (String × String)) : List (String × String) :=
  match vd.minLength with
  | some ml =>
    if s.length < ml then
      setKey errs v.name (v.label ++ " must be at least " ++ toString ml ++ " characters")
    else errs
  | none => errs

/-- `maxLength !== undefined && value.length > maxLength`. -/
def checkMaxLen (v : TemplateVariable) (vd : ValidationSpec) (s : String)
    (errs : List (String × String)) : List (String × String) :=
  match vd.maxLength with
  | some ml =>
    if s.length > ml then
      setKey errs v.name (v.label ++ " must be at most " ++ toString ml ++ " characters")
    else errs
  | none => errs

/-- The string length checks (string values only). -/
def checkLen (v : TemplateVariable) (vd : ValidationSpec) (value : Option JsValue)
    (errs : List (String × String)) : List (String × String) :=
  match asStr value with
  | some s => checkMaxLen v vd s (checkMinLen v vd s errs)
  | none => errs

/-- One iteration of the `for (const variable of variables)` loop. -/
def validateField (regexTest : String → String → Bool) (errs : List (String × String))
    (v : TemplateVariable) (values : List (String × JsValue)) : List (String × String) :=
  if v.required && isEmptyVal (values.lookup v.name) then
    setKey errs v.name (v.label ++ " is required")
  else if !v.required && isEmptyVal (values.lookup v.name) then errs
  else
    match v.validation with
    | none => errs
    | some vd =>
      checkLen v vd (values.lookup v.name)
        (checkRange v vd (values.lookup v.name)
          (checkPattern regexTest v vd (values.lookup v.name) errs))

/-- Shallow embedding of `validateVariables`: returns `(isValid, errors)`
with `isValid = (Object.keys(errors).length === 0)`. -/
def validateVariables (regexTest : String → String → Bool)
    (vars : List TemplateVariable) (values : List (String × JsValue)) :
    Bool × List (String × String) :=
  ((vars.foldl (fun errs v => validateField regexTest errs v values) []).isEmpty,
    vars.foldl (fun errs v => validateField regexTest errs v values) [])

lemma lookup_map_set_self {m : List (String × String)} {k v : String}
    (hany : m.any (fun p => p.1 == k) = true) :
    (m.map (fun p => if p.1 == k then (k, v) else p)).lookup k = some v := by
  induction m with
  | nil => simp at hany
  | cons p rest ih =>
    obtain ⟨pk, pv⟩ := p
    by_cases hpk : pk = k
    · subst hpk
      have h1 : ((pk : String) == pk) = true := by simp
      simp [List.lookup_cons, h1]
    · have hpk' : (pk == k) = false := beq_eq_false_iff_ne.mpr hpk
      have hkp : ((k : String) == pk) = false := beq_eq_false_iff_ne.mpr (fun h => hpk h.symm)
      have hrest : rest.any (fun p => p.1 == k) = true := by
        simp only [List.any_cons] at hany
        rcases Bool.or_eq_true_iff.mp hany with h1 | h2
        · exact absurd (by simpa using h1) hpk
        · exact h2
      simp only [List.map_cons, hpk', Bool.false_eq_true, if_false, List.lookup_cons, hkp]
      exact ih hrest

lemma lookup_map_set_other {m : List (String × String)} {k v n : String} (hne : n ≠ k) :
    (m.map (fun p => if p.1 == k then (k, v) else p)).lookup n = m.lookup n := by
  induction m with
  | nil => simp
  | cons p rest ih =>
    obtain ⟨pk, pv⟩ := p
    by_cases hpk : pk = k
    · subst hpk
      have h1 : ((pk : String) == pk) = true := by simp
      have h2 : (n == pk) = false := beq_eq_false_iff_ne.mpr hne
      simp only [List.map_cons, h1, if_true, List.lookup_cons, h2]
      exact ih
    · have hpk' : (pk == k) = false := beq_eq_false_iff_ne.mpr hpk
      simp only [List.map_cons, hpk', Bool.false_eq_true, if_false, List.lookup_cons]
      cases hnp : (n == pk) with
      | true => rfl
      | false => exact ih

lemma setKey_lookup_self (m : List (String × String)) (k v : String) :
    (setKey m k v).lookup k = some v := by
  rw [setKey]
  split
  · next hany => exact lookup_map_set_self hany
  · next hany =>
    have hnone : m.lookup k = none := by
      rw [List.lookup_eq_none_iff]
      intro p hp
      simp only [List.any_eq_true, not_exists, not_and] at hany
      have h1 : ¬ (p.1 == k) = true := hany p hp
      simp only [beq_iff_eq] at h1
      simp only [bne_iff_ne, ne_eq]
      exact fun h => h1 h.symm
    rw [List.lookup_append, hnone]
    simp

lemma setKey_lookup_other {m : List (String × String)} {k v n : String} (hne : n ≠ k) :
    (setKey m k v).lookup n = m.lookup n := by
  have hnk : (n == k) = false := beq_eq_false_iff_ne.mpr hne
  rw [setKey]
  split
  · exact lookup_map_set_other hne
  · rw [List.lookup_append]
    cases hm : m.lookup n with
    | some w => simp
    | none => simp [List.lookup_cons, hnk]

lemma checks_lookup_other {regexTest : String → String → Bool} {v : TemplateVariable}
    {vd : ValidationSpec} {value : Option JsValue} {errs : List (String × String)}
    {n : String} (hne : n ≠ v.name) :
    (checkLen v vd value (checkRange v vd value
      (checkPattern regexTest v vd value errs))).lookup n = errs.lookup n := by
  have hp : ∀ errs' : List (String × String),
      (checkPattern regexTest v vd value errs').lookup n = errs'.lookup n := by
    intro errs'
    rcases hpat : vd.pattern with _ | pat
    · simp [checkPattern, hpat]
    · rcases hs : asStr value with _ | s
      · simp [checkPattern, hpat, hs]
      · simp only [checkPattern, hpat, hs]
        split
        · rfl
        · split
          · rfl
          · exact setKey_lookup_other hne
  have hmin : ∀ m (errs' : List (String × String)),
      (checkMin v vd m errs').lookup n = errs'.lookup n := by
    intro m errs'
    rcases hmn : vd.min with _ | mn
    · simp [checkMin, hmn]
    · simp only [checkMin, hmn]
      split
      · exact setKey_lookup_other hne
      · rfl
  have hmax : ∀ m (errs' : List (String × String)),
      (checkMax v vd m errs').lookup n = errs'.lookup n := by
    intro m errs'
    rcases hmx : vd.max with _ | mx
    · simp [checkMax, hmx]
    · simp only [checkMax, hmx]
      split
      · exact setKey_lookup_other hne
      · rfl
  have hminl : ∀ s (errs' : List (String × String)),
      (checkMinLen v vd s errs').lookup n = errs'.lookup n := by
    intro s errs'
    rcases hml : vd.minLength with _ | ml
    · simp [checkMinLen, hml]
    · simp only [checkMinLen, hml]
      split
      · exact setKey_lookup_other hne
      · rfl
  have hmaxl : ∀ s (errs' : List (String × String)),
      (checkMaxLen v vd s errs').lookup n = errs'.lookup n := by
    intro s errs'
    rcases hml : vd.maxLength with _ | ml
    · simp [checkMaxLen, hml]
    · simp only [checkMaxLen, hml]
      split
      · exact setKey_lookup_other hne
      · rfl
  have hr : ∀ errs' : List (String × String),
      (checkRange v vd value errs').lookup n = errs'.lookup n := by
    intro errs'
    rcases hnv : asNum value with _ | m
    · simp [checkRange, hnv]
    · simp only [checkRange, hnv]
      rw [hmax, hmin]
  have hl : ∀ errs' : List (String × String),
      (checkLen v vd value errs').lookup n = errs'.lookup n := by
    intro errs'
    rcases hsv : asStr value with _ | s
    · simp [checkLen, hsv]
    · simp only [checkLen, hsv]
      rw [hmaxl, hminl]
  rw [hl, hr, hp]

lemma validateField_lookup_other {regexTest : String → String → Bool}
    {errs : List (String × String)} {v : TemplateVariable}
    {values : List (String × JsValue)} {n : String} (hne : n ≠ v.name) :
    (validateField regexTest errs v values).lookup n = errs.lookup n := by
  rw [validateField]
  split
  · exact setKey_lookup_other hne
  · split
    · rfl
    · rcases hv : v.validation with _ | vd
      · simp [hv]
      · simp only [hv]
        exact checks_lookup_other hne

lemma validateFold_lookup_other {regexTest : String → String → Bool}
    {values : List (String × JsValue)} {n : String} :
    ∀ (ws : List TemplateVariable) (errs : List (String × String)),
      (∀ w ∈ ws, w.name ≠ n) →
      (ws.foldl (fun e w => validateField regexTest e w values) errs).lookup n =
        errs.lookup n := by
  intro ws
  induction ws with
  | nil => intro errs _; rfl
  | cons w ws ih =>
    intro errs hws
    rw [List.foldl_cons, ih _ (fun w' h' => hws w' (by simp [h']))]
    exact validateField_lookup_other (fun h => hws w (by simp) h.symm)

/-- C7 (amended): the per-variable error rules of `validateVariables`, for
any abstracted regex engine: a required variable whose value is undefined
or the empty string gets exactly the "is required" message (no later check
overwrites it for that field); a non-required variable whose value is
undefined or empty gets no error regardless of constraints; a required
variable that is present and non-empty and carries no validation object
gets no error (with a validation object, pattern/min/max/length checks may
still record an error — see the counterexample); and isValid is true iff
the error map is empty. -/
theorem validateVariables_rules (regexTest : String → String → Bool)
    (vars : List TemplateVariable) (values : List (String × JsValue))
    (hnd : (vars.map TemplateVariable.name).Nodup)
    (v : TemplateVariable) (hv : v ∈ vars) :
    (v.required = true → isEmptyVal (values.lookup v.name) = true →
      (validateVariables regexTest vars values).2.lookup v.name =
        some (v.label ++ " is required")) ∧
    (v.required = false → isEmptyVal (values.lookup v.name) = true →
      (validateVariables regexTest vars values).2.lookup v.name = none) ∧
    (v.required = true → isEmptyVal (values.lookup v.name) = false → v.validation = none →
      (validateVariables regexTest vars values).2.lookup v.name = none) ∧
    ((validateVariables regexTest vars values).1 = true ↔
      (validateVariables regexTest vars values).2 = []) := by
  obtain ⟨L1, L2, hsplit⟩ := List.append_of_mem hv
  subst hsplit
  rw [List.map_append, List.map_cons] at hnd
  rw [List.nodup_append] at hnd
  obtain ⟨hnd1, hnd2, hdisj⟩ := hnd
  have hL2 : ∀ w ∈ L2, w.name ≠ v.name := by
    intro w hw heq
    rw [List.nodup_cons] at hnd2
    exact hnd2.1 (heq ▸ List.mem_map_of_mem TemplateVariable.name hw)
  have hL1 : ∀ w ∈ L1, w.name ≠ v.name := by
    intro w hw heq
    exact hdisj (List.mem_map_of_mem TemplateVariable.name hw) (by simp [heq])
  have hfold : (validateVariables regexTest (L1 ++ v :: L2) values).2 =
      L2.foldl (fun e w => validateField regexTest e w values)
        (validateField regexTest
          (L1.foldl (fun e w => validateField regexTest e w values) []) v values) := by
    rw [validateVariables]
    rw [List.foldl_append, List.foldl_cons]
  have hE1 : (L1.foldl (fun e w => validateField regexTest e w values) []).lookup v.name =
      none := validateFold_lookup_other L1 [] hL1
  have hstep : ∀ errs1,
      (L2.foldl (fun e w => validateField regexTest e w values) errs1).lookup v.name =
        errs1.lookup v.name := fun errs1 => validateFold_lookup_other L2 errs1 hL2
  refine ⟨?_, ?_, ?_, ?_⟩
  · intro hreq hempty
    rw [hfold, hstep]
    rw [validateField, if_pos (by rw [hreq, hempty]; rfl)]
    exact setKey_lookup_self _ _ _
  · intro hreq hempty
    rw [hfold, hstep]
    rw [validateField, if_neg (by rw [hreq]; simp),
      if_pos (by rw [hreq, hempty]; rfl)]
    exact hE1
  · intro hreq hempty hval
    rw [hfold, hstep]
    rw [validateField, if_neg (by rw [hreq, hempty]; simp),
      if_neg (by rw [hempty]; simp)]
    simp only [hval]
    exact hE1
  · rw [validateVariables]
    simp only [List.isEmpty_iff]

/-- C7 counterexample: the claim's third rule fails as stated — a required
variable that is present and non-empty can still receive an error from its
validation constraints (here `minLength: 5` against the value `"ab"`). -/
theorem validate_required_present_counterexample :
    ((validateVariables (fun _ _ => true)
        [{ name := "x", label := "X", required := true,
           validation := some { minLength := some 5 } }]
        [("x", JsValue.vStr "ab")]).2).lookup "x" =
      some "X must be at least 5 characters" ∧
    isEmptyVal ([("x", JsValue.vStr "ab")].lookup "x") = false := by
  refine ⟨?_, ?_⟩ <;> decide

/-- Witness for C7's amended rules at a concrete variable list. -/
theorem validateVariables_rules_witness :
    (([{ name := "x", label := "X", required := true, validation := none }] :
        List TemplateVariable).map TemplateVariable.name).Nodup ∧
    (validateVariables (fun _ _ => true)
        [{ name := "x", label := "X", required := true, validation := none }]
        []).2.lookup "x" = some ("X" ++ " is required") :=
  ⟨by decide,
    (validateVariables_rules (fun _ _ => true)
      [{ name := "x", label := "X", required := true, validation := none }] []
      (by decide) { name := "x", label := "X", required := true, validation := none }
      (by simp)).1 rfl (by decide)⟩

/-! ### CRC-32 (src/unnamed/part_002 lines 491-517) -/

/-- One bit-round of the reflected CRC:
`c = (c & 1) ? (0xEDB88320 ^ (c >>> 1)) : (c >>> 1)`. -/
def crcRound (c : Nat) : Nat :=
  if c % 2 = 1 then 0xEDB88320 ^^^ (c / 2) else c / 2

/-- One entry of the table built by `getCrc32Table`: the index taken
through eight rounds (the inner `for (let j = 0; j < 8; j++)` loop). -/
def getCrc32TableEntry (i : Nat) : Nat := crcRound^[8] i

/-- The 256-entry CRC table of `getCrc32Table`.  The source builds it
lazily and caches it; per the spec the memoization is performance-only, so
the table is modelled as this pure value. -/
def getCrc32Table : List Nat := (List.range 256).map getCrc32TableEntry

/-- Shallow embedding of `crc32`: table-driven, byte-at-a-time,
`crc = (crc >>> 8) ^ table[(crc ^ buffer[i]) & 0xFF]`, initial register
all-ones, final value complemented.  JS signed/unsigned conversions change
only the sign interpretation of the 32-bit pattern, never its bits, so Nat
xor/div model them faithfully. -/
def crc32 (buffer : List Nat) : Nat :=
  (buffer.foldl
    (fun crc b => (crc / 256) ^^^ getCrc32Table.getD ((crc ^^^ b) % 256) 0)
    0xFFFFFFFF) ^^^ 0xFFFFFFFF

/-- Modelled from the spec: the reference bit-at-a-time reflected CRC-32
(IEEE 802.3 / zlib polynomial 0xEDB88320): xor each byte into the
register, run eight polynomial rounds, initial value all-ones, final value
complemented. -/
def crc32Reference (buffer : List Nat) : Nat :=
  (buffer.foldl (fun crc b => crcRound^[8] (crc ^^^ b)) 0xFFFFFFFF) ^^^ 0xFFFFFFFF

lemma xor_div_two (a b : Nat) : (a ^^^ b) / 2 = a / 2 ^^^ b / 2 := by
  apply Nat.eq_of_testBit_eq
  intro i
  simp [Nat.testBit_div_two, Nat.testBit_xor]

lemma xor_mod_two (a b : Nat) : (a ^^^ b) % 2 = (a % 2) ^^^ (b % 2) := by
  have h := Nat.testBit_xor a b 0
  simp only [Nat.testBit_zero] at h
  rcases Nat.mod_two_eq_zero_or_one a with ha | ha <;>
    rcases Nat.mod_two_eq_zero_or_one b with hb | hb <;>
    rcases Nat.mod_two_eq_zero_or_one (a ^^^ b) with hc | hc <;>
    simp [ha, hb, hc] at h ⊢

lemma crcRound_xor (a b : Nat) : crcRound (a ^^^ b) = crcRound a ^^^ crcRound b := by
  unfold crcRound
  have hx := xor_mod_two a b
  rcases Nat.mod_two_eq_zero_or_one a with ha | ha <;>
    rcases Nat.mod_two_eq_zero_or_one b with hb | hb <;>
    rw [ha, hb] at hx <;> norm_num at hx <;>
    simp [ha, hb, hx, xor_div_two] <;>
    (apply Nat.eq_of_testBit_eq
     intro i
     simp only [Nat.testBit_xor]
     generalize (3988292384 : Nat).testBit i = p
     generalize (a / 2).testBit i = x
     generalize (b / 2).testBit i = y
     cases p <;> cases x <;> cases y <;> rfl)

lemma crcRound_iterate_xor (k a b : Nat) :
    crcRound^[k] (a ^^^ b) = crcRound^[k] a ^^^ crcRound^[k] b := by
  induction k generalizing a b with
  | zero => rfl
  | succ k ih =>
    simp only [Function.iterate_succ_apply]
    rw [crcRound_xor, ih]

lemma crcRound_iterate_mul_pow (k x : Nat) : crcRound^[k] (2 ^ k * x) = x := by
  induction k generalizing x with
  | zero => simp
  | succ k ih =>
    simp only [Function.iterate_succ_apply]
    have h2 : 2 ^ (k + 1) * x = 2 * (2 ^ k * x) := by ring
    have heven : (2 * (2 ^ k * x)) % 2 = 0 := Nat.mul_mod_right 2 _
    have hdiv : (2 * (2 ^ k * x)) / 2 = 2 ^ k * x := by omega
    rw [h2, crcRound, heven]
    simp only [hdiv]
    simp only [if_neg (by omega : ¬ (0 : Nat) = 1)]
    exact ih x

lemma mul256_xor_eq_add {b : Nat} (a : Nat) (hb : b < 256) :
    (2 ^ 8 * a) ^^^ b = 2 ^ 8 * a + b := by
  apply Nat.eq_of_testBit_eq
  intro j
  rw [Nat.testBit_xor, Nat.testBit_mul_pow_two_add a hb j, Nat.testBit_mul_pow_two]
  by_cases hj : j < 8
  · simp [hj, Nat.not_le_of_lt hj]
  · have h8 : (256 : Nat) ≤ 2 ^ j := by
      calc (256 : Nat) = 2 ^ 8 := by norm_num
      _ ≤ 2 ^ j := Nat.pow_le_pow_right (by norm_num) (by omega)
    have hbj : b.testBit j = false := Nat.testBit_lt_two_pow (lt_of_lt_of_le hb h8)
    simp [hj, hbj, Nat.le_of_not_lt hj]

lemma xor_div_pow (a b k : Nat) : (a ^^^ b) / 2 ^ k = a / 2 ^ k ^^^ b / 2 ^ k := by
  induction k with
  | zero => simp
  | succ k ih =>
    rw [pow_succ, ← Nat.div_div_eq_div_mul, ← Nat.div_div_eq_div_mul,
      ← Nat.div_div_eq_div_mul, ih, xor_div_two]

lemma getCrc32Table_getD {i : Nat} (h : i < 256) :
    getCrc32Table.getD i 0 = getCrc32TableEntry i := by
  rw [getCrc32Table, List.getD_eq_getElem?_getD]
  simp [List.getElem?_map, List.getElem?_range, h]

lemma crc_step_eq (c b : Nat) (hb : b < 256) :
    (c / 256) ^^^ getCrc32Table.getD ((c ^^^ b) % 256) 0 = crcRound^[8] (c ^^^ b) := by
  rw [getCrc32Table_getD (Nat.mod_lt _ (by norm_num))]
  have hdecomp : c ^^^ b = (2 ^ 8 * ((c ^^^ b) / 256)) ^^^ ((c ^^^ b) % 256) := by
    rw [mul256_xor_eq_add _ (Nat.mod_lt _ (by norm_num))]
    omega
  conv_rhs => rw [hdecomp]
  rw [crcRound_iterate_xor, crcRound_iterate_mul_pow]
  have hc : (c ^^^ b) / 256 = c / 256 := by
    have h1 : (c ^^^ b) / 256 = c / 256 ^^^ b / 256 := by
      have := xor_div_pow c b 8
      norm_num at this
      exact this
    rw [h1, Nat.div_eq_of_lt hb]
    simp
  rw [hc]
  rfl

/-- C4: `crc32` computes the standard IEEE 802.3 / zlib CRC-32: the
table-driven byte-at-a-time implementation with initial register all-ones
and complemented final value agrees with the reference bit-at-a-time
reflected-polynomial definition on every byte sequence. -/
theorem crc32_matches_reference (buffer : List Nat) (h : ∀ b ∈ buffer, b < 256) :
    crc32 buffer = crc32Reference buffer := by
  rw [crc32, crc32Reference]
  congr 1
  have key : ∀ (bs : List Nat), (∀ b ∈ bs, b < 256) → ∀ (init : Nat),
      bs.foldl (fun crc b => (crc / 256) ^^^ getCrc32Table.getD ((crc ^^^ b) % 256) 0) init =
        bs.foldl (fun crc b => crcRound^[8] (crc ^^^ b)) init := by
    intro bs
    induction bs with
    | nil => intro _ _; rfl
    | cons b bs ih =>
      intro hbs init
      rw [List.foldl_cons, List.foldl_cons, crc_step_eq init b (hbs b (by simp)),
        ih (fun x hx => hbs x (by simp [hx]))]
  exact key buffer h 0xFFFFFFFF

/-- Witness for C4 at a concrete byte string. -/
theorem crc32_matches_reference_witness :
    (∀ b ∈ [104, 105, 33], b < 256) ∧ crc32 [104, 105, 33] = crc32Reference [104, 105, 33] :=
  ⟨by decide, crc32_matches_reference [104, 105, 33] (by decide)⟩

/-! ### Byte-level primitives for the binary encoders -/

/-- UTF-8 encoding of one Unicode scalar value (`Buffer.from(s, 'utf-8')`
encodes each scalar; JS strings and Lean `Char` agree on the BMP and the
supplementary planes encode identically from surrogate pairs). -/
def utf8Bytes (c : Char) : List Nat :=
  if c.toNat < 128 then [c.toNat]
  else if c.toNat < 2048 then [192 + c.toNat / 64, 128 + c.toNat % 64]
  else if c.toNat < 65536 then
    [224 + c.toNat / 4096, 128 + c.toNat / 64 % 64, 128 + c.toNat % 64]
  else
    [240 + c.toNat / 262144, 128 + c.toNat / 4096 % 64,
      128 + c.toNat / 64 % 64, 128 + c.toNat % 64]

/-- UTF-8 encoding of a string (`Buffer.from(str, 'utf-8')`). -/
def utf8Enc (s : List Char) : List Nat := s.flatMap utf8Bytes

/-- `buffer.writeUInt16LE` (Node throws out of range above 2^16; the model
totalises with the low 16 bits, and theorems carry bounds where a value is
decoded back). -/
def u16le (n : Nat) : List Nat := [n % 256, n / 256 % 256]

/-- `buffer.writeUInt32LE` (same remark as `u16le`). -/
def u32le (n : Nat) : List Nat :=
  [n % 256, n / 256 % 256, n / 65536 % 256, n / 16777216 % 256]

/-- Little-endian decoding of a byte list (reading a field back from the
emitted stream). -/
def decodeLE : List Nat → Nat
  | [] => 0
  | b :: rest => b + 256 * decodeLE rest

lemma u16le_length (n : Nat) : (u16le n).length = 2 := rfl

lemma u32le_length (n : Nat) : (u32le n).length = 4 := rfl

lemma decodeLE_u16le {n : Nat} (h : n < 65536) : decodeLE (u16le n) = n := by
  simp only [u16le, decodeLE]
  omega

lemma decodeLE_u32le {n : Nat} (h : n < 4294967296) : decodeLE (u32le n) = n := by
  simp only [u32le, decodeLE]
  omega

lemma crcRound_lt {c : Nat} (h : c < 4294967296) : crcRound c < 4294967296 := by
  rw [crcRound]
  have h2 : c / 2 < 4294967296 := by omega
  split
  · have : (4294967296 : Nat) = 2 ^ 32 := by norm_num
    rw [this] at h2 ⊢
    exact Nat.xor_lt_two_pow (by norm_num) h2
  · exact h2

lemma crcRound_iterate_lt {k c : Nat} (h : c < 4294967296) :
    crcRound^[k] c < 4294967296 := by
  induction k generalizing c with
  | zero => exact h
  | succ k ih =>
    rw [Function.iterate_succ_apply]
    exact ih (crcRound_lt h)

/-- The CRC register always fits in 32 bits. -/
lemma crc32_lt (buffer : List Nat) : crc32 buffer < 4294967296 := by
  rw [crc32]
  have key : ∀ (bs : List Nat) (init : Nat), init < 4294967296 →
      bs.foldl (fun crc b => (crc / 256) ^^^ getCrc32Table.getD ((crc ^^^ b) % 256) 0)
        init < 4294967296 := by
    intro bs
    induction bs with
    | nil => intro init h; exact h
    | cons b bs ih =>
      intro init h
      rw [List.foldl_cons]
      apply ih
      rw [getCrc32Table_getD (Nat.mod_lt _ (by norm_num))]
      have h1 : init / 256 < 4294967296 := by omega
      have h2 : getCrc32TableEntry ((init ^^^ b) % 256) < 4294967296 :=
        crcRound_iterate_lt (by
          have : (init ^^^ b) % 256 < 256 := Nat.mod_lt _ (by norm_num)
          omega)
      have he : (4294967296 : Nat) = 2 ^ 32 := by norm_num
      rw [he] at h1 h2 ⊢
      exact Nat.xor_lt_two_pow h1 h2
  have h1 := key buffer 0xFFFFFFFF (by norm_num)
  have he : (4294967296 : Nat) = 2 ^ 32 := by norm_num
  rw [he] at h1 ⊢
  exact Nat.xor_lt_two_pow h1 (by norm_num)

/-! ### The hand-built DOCX ZIP container
(`createMinimalDocxZip`, src/unnamed/part_002 lines 414-488) -/

/-- One local file header followed by the stored entry data (the 30-byte
header layout written by the source at offsets 0,4,6,8,10,12,14,18,22,26,28,
then the file name and the raw content). -/
def zipLocalEntry (name content : String) : List Nat :=
  u32le 0x04034b50 ++ u16le 20 ++ u16le 0 ++ u16le 0 ++ u16le 0 ++ u16le 0 ++
    u32le (crc32 (utf8Enc content.toList)) ++
    u32le (utf8Enc content.toList).length ++
    u32le (utf8Enc content.toList).length ++
    u16le (utf8Enc name.toList).length ++ u16le 0 ++
    utf8Enc name.toList ++ utf8Enc content.toList

/-- One central-directory header (46-byte layout written at offsets
0,4,6,8,10,12,14,16,20,24,28,30,32,34,36,38,42, then the file name). -/
def zipCentralEntry (name content : String) (offset : Nat) : List Nat :=
  u32le 0x02014b50 ++ u16le 20 ++ u16le 20 ++ u16le 0 ++ u16le 0 ++ u16le 0 ++ u16le 0 ++
    u32le (crc32 (utf8Enc content.toList)) ++
    u32le (utf8Enc content.toList).length ++
    u32le (utf8Enc content.toList).length ++
    u16le (utf8Enc name.toList).length ++ u16le 0 ++ u16le 0 ++ u16le 0 ++ u16le 0 ++
    u32le 0 ++ u32le offset ++ utf8Enc name.toList

/-- The 22-byte end-of-central-directory record. -/
def zipEocd (count size offset : Nat) : List Nat :=
  u32le 0x06054b50 ++ u16le 0 ++ u16le 0 ++ u16le count ++ u16le count ++
    u32le size ++ u32le offset ++ u16le 0

/-- The four fixed entries of the DOCX package, in the source's order. -/
def docxFiles (contentTypes rels documentRels documentContent : String) :
    List (String × String) :=
  [("[Content_Types].xml", contentTypes),
   ("_rels/.rels", rels),
   ("word/_rels/document.xml.rels", documentRels),
   ("word/document.xml", documentContent)]

/-- The central-directory records with the running local-header offset
(`offset += localHeader.length` in the source loop). -/
def zipCentralsAux : List (String × String) → Nat → List Nat
  | [], _ => []
  | f :: rest, off =>
    zipCentralEntry f.1 f.2 off ++ zipCentralsAux rest (off + (zipLocalEntry f.1 f.2).length)

/-- Shallow embedding of `createMinimalDocxZip`: all local header+content
blocks, then all central-directory headers, then the end-of-central-
directory record with entry count, central-directory size and offset. -/
def createMinimalDocxZip (contentTypes rels documentRels documentContent : String) :
    List Nat :=
  ((docxFiles contentTypes rels documentRels documentContent).map
      (fun f => zipLocalEntry f.1 f.2)).flatten ++
    zipCentralsAux (docxFiles contentTypes rels documentRels documentContent) 0 ++
    zipEocd (docxFiles contentTypes rels documentRels documentContent).length
      (zipCentralsAux (docxFiles contentTypes rels documentRels documentContent) 0).length
      (((docxFiles contentTypes rels documentRels documentContent).map
        (fun f => zipLocalEntry f.1 f.2)).flatten).length

lemma zipLocalEntry_fields (name content : String) :
    ∃ A B, zipLocalEntry name content =
      A ++ (u32le (crc32 (utf8Enc content.toList)) ++
        (u32le (utf8Enc content.toList).length ++
          (u32le (utf8Enc content.toList).length ++ B))) ∧
      A.length = 14 := by
  refine ⟨u32le 0x04034b50 ++ u16le 20 ++ u16le 0 ++ u16le 0 ++ u16le 0 ++ u16le 0,
    u16le (utf8Enc name.toList).length ++ u16le 0 ++
      utf8Enc name.toList ++ utf8Enc content.toList, ?_, rfl⟩
  simp [zipLocalEntry, List.append_assoc]

lemma zipCentralEntry_fields (name content : String) (off : Nat) :
    (∃ A B, zipCentralEntry name content off =
      A ++ (u32le (crc32 (utf8Enc content.toList)) ++
        (u32le (utf8Enc content.toList).length ++
          (u32le (utf8Enc content.toList).length ++ B))) ∧
      A.length = 16) ∧
    (∃ A2 B2, zipCentralEntry name content off = A2 ++ (u32le off ++ B2) ∧
      A2.length = 42) := by
  constructor
  · refine ⟨u32le 0x02014b50 ++ u16le 20 ++ u16le 20 ++ u16le 0 ++ u16le 0 ++
      u16le 0 ++ u16le 0,
      u16le (utf8Enc name.toList).length ++ u16le 0 ++ u16le 0 ++ u16le 0 ++ u16le 0 ++
        u32le 0 ++ u32le off ++ utf8Enc name.toList, ?_, rfl⟩
    simp [zipCentralEntry, List.append_assoc]
  · refine ⟨u32le 0x02014b50 ++ u16le 20 ++ u16le 20 ++ u16le 0 ++ u16le 0 ++
      u16le 0 ++ u16le 0 ++ u32le (crc32 (utf8Enc content.toList)) ++
      u32le (utf8Enc content.toList).length ++ u32le (utf8Enc content.toList).length ++
      u16le (utf8Enc name.toList).length ++ u16le 0 ++ u16le 0 ++ u16le 0 ++ u16le 0 ++
      u32le 0, utf8Enc name.toList, ?_, rfl⟩
    simp [zipCentralEntry, List.append_assoc]

lemma zipLocalEntry_length (name content : String) :
    (zipLocalEntry name content).length =
      30 + (utf8Enc name.toList).length + (utf8Enc content.toList).length := by
  simp [zipLocalEntry, List.length_append, u16le_length, u32le_length]
  omega

lemma decode_crc_field (x : List Nat) : decodeLE (u32le (crc32 x)) = crc32 x :=
  decodeLE_u32le (crc32_lt x)

lemma zipCentralEntry_length (name content : String) (off : Nat) :
    (zipCentralEntry name content off).length = 46 + (utf8Enc name.toList).length := by
  simp [zipCentralEntry, List.length_append, u16le_length, u32le_length]
  omega

/-- C3: structural round-trip of the ZIP stream emitted by
`createMinimalDocxZip`: the stream is exactly the four local header+content
blocks, then the four central-directory records whose local-header offsets
are the cumulative lengths of the preceding local blocks, then the
end-of-central-directory record with entry count 4 and central-directory
size/offset equal to the emitted central/local region lengths; in each
local and central header the CRC-32 field holds the CRC-32 of the stored
content bytes and the compressed- and uncompressed-size fields both hold
the content byte length, and all of these fields decode back exactly. -/
theorem createMinimalDocxZip_roundtrip (ct r dr dc : String)
    (hct : (utf8Enc ct.toList).length < 4294967296)
    (hr : (utf8Enc r.toList).length < 4294967296)
    (hdr : (utf8Enc dr.toList).length < 4294967296)
    (hdc : (utf8Enc dc.toList).length < 4294967296)
    (htot : (zipLocalEntry "[Content_Types].xml" ct).length +
      (zipLocalEntry "_rels/.rels" r).length +
      (zipLocalEntry "word/_rels/document.xml.rels" dr).length +
      (zipLocalEntry "word/document.xml" dc).length < 4294967296) :
    (createMinimalDocxZip ct r dr dc =
      zipLocalEntry "[Content_Types].xml" ct ++
      (zipLocalEntry "_rels/.rels" r ++
      (zipLocalEntry "word/_rels/document.xml.rels" dr ++
      (zipLocalEntry "word/document.xml" dc ++
      (zipCentralEntry "[Content_Types].xml" ct 0 ++
      (zipCentralEntry "_rels/.rels" r
        (zipLocalEntry "[Content_Types].xml" ct).length ++
      (zipCentralEntry "word/_rels/document.xml.rels" dr
        ((zipLocalEntry "[Content_Types].xml" ct).length +
          (zipLocalEntry "_rels/.rels" r).length) ++
      (zipCentralEntry "word/document.xml" dc
        ((zipLocalEntry "[Content_Types].xml" ct).length +
          (zipLocalEntry "_rels/.rels" r).length +
          (zipLocalEntry "word/_rels/document.xml.rels" dr).length) ++
      zipEocd 4
        (zipCentralsAux (docxFiles ct r dr dc) 0).length
        (((docxFiles ct r dr dc).map (fun f => zipLocalEntry f.1 f.2)).flatten).length)))))))) ∧
    ((zipCentralsAux (docxFiles ct r dr dc) 0).length = 259) ∧
    ((((docxFiles ct r dr dc).map (fun f => zipLocalEntry f.1 f.2)).flatten).length =
      (zipLocalEntry "[Content_Types].xml" ct).length +
      (zipLocalEntry "_rels/.rels" r).length +
      (zipLocalEntry "word/_rels/document.xml.rels" dr).length +
      (zipLocalEntry "word/document.xml" dc).length) ∧
    (∀ c' ∈ [ct, r, dr, dc], ∀ nm,
      (∃ A B, zipLocalEntry nm c' =
        A ++ (u32le (crc32 (utf8Enc c'.toList)) ++
          (u32le (utf8Enc c'.toList).length ++
            (u32le (utf8Enc c'.toList).length ++ B))) ∧ A.length = 14) ∧
      (∀ off, ∃ A B, zipCentralEntry nm c' off =
        A ++ (u32le (crc32 (utf8Enc c'.toList)) ++
          (u32le (utf8Enc c'.toList).length ++
            (u32le (utf8Enc c'.toList).length ++ B))) ∧ A.length = 16) ∧
      (∀ off, ∃ A2 B2, zipCentralEntry nm c' off = A2 ++ (u32le off ++ B2) ∧
        A2.length = 42)) ∧
    (∀ x, decodeLE (u32le (crc32 x)) = crc32 x) ∧
    (∀ c' ∈ [ct, r, dr, dc],
      decodeLE (u32le (utf8Enc c'.toList).length) = (utf8Enc c'.toList).length) ∧
    (decodeLE (u16le 4) = 4) ∧
    (decodeLE (u32le (zipCentralsAux (docxFiles ct r dr dc) 0).length) =
      (zipCentralsAux (docxFiles ct r dr dc) 0).length) ∧
    (∀ o, o ≤ (zipLocalEntry "[Content_Types].xml" ct).length +
        (zipLocalEntry "_rels/.rels" r).length +
        (zipLocalEntry "word/_rels/document.xml.rels" dr).length +
        (zipLocalEntry "word/document.xml" dc).length →
      decodeLE (u32le o) = o) := by
  have hcsize : (zipCentralsAux (docxFiles ct r dr dc) 0).length = 259 := by
    simp [zipCentralsAux, docxFiles, List.length_append, zipCentralEntry_length]
    decide
  refine ⟨?_, hcsize, ?_, ?_, decode_crc_field, ?_, by decide, ?_, ?_⟩
  · simp [createMinimalDocxZip, docxFiles, zipCentralsAux, List.map_cons, List.map_nil,
      List.flatten_cons, List.flatten_nil, List.append_nil, List.append_assoc]
  · simp [docxFiles, List.length_append]
    omega
  · intro c' _ nm
    exact ⟨zipLocalEntry_fields nm c',
      fun off => (zipCentralEntry_fields nm c' off).1,
      fun off => (zipCentralEntry_fields nm c' off).2⟩
  · intro c' hc'
    simp only [List.mem_cons, List.not_mem_nil, or_false] at hc'
    rcases hc' with rfl | rfl | rfl | rfl
    · exact decodeLE_u32le hct
    · exact decodeLE_u32le hr
    · exact decodeLE_u32le hdr
    · exact decodeLE_u32le hdc
  · rw [hcsize]
    exact decodeLE_u32le (by norm_num)
  · intro o ho
    exact decodeLE_u32le (by omega)

/-- Witness for C3 at four tiny concrete part contents. -/
theorem createMinimalDocxZip_roundtrip_witness :
    (utf8Enc ("a" : String).toList).length < 4294967296 ∧
    (createMinimalDocxZip "a" "b" "c" "d" =
      zipLocalEntry "[Content_Types].xml" "a" ++
      (zipLocalEntry "_rels/.rels" "b" ++
      (zipLocalEntry "word/_rels/document.xml.rels" "c" ++
      (zipLocalEntry "word/document.xml" "d" ++
      (zipCentralEntry "[Content_Types].xml" "a" 0 ++
      (zipCentralEntry "_rels/.rels" "b"
        (zipLocalEntry "[Content_Types].xml" "a").length ++
      (zipCentralEntry "word/_rels/document.xml.rels" "c"
        ((zipLocalEntry "[Content_Types].xml" "a").length +
          (zipLocalEntry "_rels/.rels" "b").length) ++
      (zipCentralEntry "word/document.xml" "d"
        ((zipLocalEntry "[Content_Types].xml" "a").length +
          (zipLocalEntry "_rels/.rels" "b").length +
          (zipLocalEntry "word/_rels/document.xml.rels" "c").length) ++
      zipEocd 4
        (zipCentralsAux (docxFiles "a" "b" "c" "d") 0).length
        (((docxFiles "a" "b" "c" "d").map
          (fun f => zipLocalEntry f.1 f.2)).flatten).length)))))))) :=
  ⟨by decide,
    (createMinimalDocxZip_roundtrip "a" "b" "c" "d" (by decide) (by decide) (by decide)
      (by decide) (by decide)).1⟩

/-! ### generateFallbackPdf (src/unnamed/part_002, lines 206-334)

The markdown-stripping passes chain five global regex replaces.  The
line-anchored ones (`^#{1,6}\s+`, `^\- `, `^---$`, all with the `m` flag)
are embedded as fuelled left-to-right scans carrying an `atStart` flag: a
position is a line start when it is the start of the input or the previous
character is a line terminator.  `\s` is modelled by the ASCII whitespace
class `isWsChar` (the source never feeds the exotic Unicode space
characters to these helpers). -/

/-- The characters after which the `m`-flag `^` matches (and which `.` and
the `m`-flag `$` exclude): `\n`, `\r`, U+2028, U+2029. -/
def isLineTerm (c : Char) : Bool :=
  c = '\n' || c = '\r' || c = Char.ofNat 8232 || c = Char.ofNat 8233

/-- JS `String.prototype.trim`: strip whitespace from both ends. -/
def jsTrim (s : List Char) : List Char :=
  ((s.dropWhile isWsChar).reverse.dropWhile isWsChar).reverse

/-- Try to match `#{1,6}\s+` at the current position.  The greedy `#` run
must not exceed six (with a longer run every backtracking split leaves a
`#` where `\s` is required) and must be followed by at least one whitespace
character, which is consumed greedily.  Returns the remainder and whether
the last consumed character is a line terminator (which decides whether the
next position is a line start). -/
def tryMatchHeader (s : List Char) : Option (List Char × Bool) :=
  if 1 ≤ (s.takeWhile (fun d => d = '#')).length ∧
      (s.takeWhile (fun d => d = '#')).length ≤ 6 ∧
      1 ≤ ((s.dropWhile (fun d => d = '#')).takeWhile isWsChar).length then
    some ((s.dropWhile (fun d => d = '#')).dropWhile isWsChar,
      ((s.dropWhile (fun d => d = '#')).takeWhile isWsChar).getLast?.elim false isLineTerm)
  else none

/-- One global pass of `.replace(/^#{1,6}\s+/gm, '')`. -/
def stripHeadersGo : Nat → Bool → List Char → List Char
  | 0, _, s => s
  | _ + 1, _, [] => []
  | n + 1, atStart, c :: r =>
    match (if atStart then tryMatchHeader (c :: r) else none) with
    | some (rest, lastLT) => stripHeadersGo n lastLT rest
    | none => c :: stripHeadersGo n (isLineTerm c) r

def stripHeaders (s : List Char) : List Char := stripHeadersGo s.length true s

/-- Scan the lazy body of `\*\*(.*?)\*\*`: stop at the earliest closing
`**`; `.` does not match line terminators, so the scan fails when one (or
the end of input) is reached first. -/
def scanStars2 : List Char → Option (List Char × List Char)
  | [] => none
  | c :: r =>
    match matchLit ['*', '*'] (c :: r) with
    | some t => some ([], t)
    | none =>
      if isLineTerm c then none
      else (scanStars2 r).map (fun p => (c :: p.1, p.2))

/-- `.replace(/\*\*(.*?)\*\*/g, '$1')`: the replacement is the captured
body. -/
def boldMatcher (s : List Char) : Option (List Char × List Char) :=
  (matchLit ['*', '*'] s).bind scanStars2

/-- Scan the lazy body of `\*(.*?)\*`. -/
def scanStars1 : List Char → Option (List Char × List Char)
  | [] => none
  | c :: r =>
    if c = '*' then some ([], r)
    else if isLineTerm c then none
    else (scanStars1 r).map (fun p => (c :: p.1, p.2))

/-- `.replace(/\*(.*?)\*/g, '$1')`. -/
def italicMatcher (s : List Char) : Option (List Char × List Char) :=
  (matchLit ['*'] s).bind scanStars1

/-- One global pass of `.replace(/^\- /gm, '• ')`. -/
def convertBulletsGo : Nat → Bool → List Char → List Char
  | 0, _, s => s
  | _ + 1, _, [] => []
  | n + 1, atStart, c :: r =>
    match (if atStart then matchLit ['-', ' '] (c :: r) else none) with
    | some t => '•' :: ' ' :: convertBulletsGo n false t
    | none => c :: convertBulletsGo n (isLineTerm c) r

def convertBullets (s : List Char) : List Char := convertBulletsGo s.length true s

/-- The horizontal-rule replacement: forty U+2500 box-drawing characters. -/
def hruleChars : List Char := List.replicate 40 (Char.ofNat 9472)

/-- One global pass of `.replace(/^---$/gm, '─…─')`: `---` at a line start
with the `m`-flag `$` right after it (end of input or a line terminator,
which is not consumed). -/
def convertHrulesGo : Nat → Bool → List Char → List Char
  | 0, _, s => s
  | _ + 1, _, [] => []
  | n + 1, atStart, c :: r =>
    match (if atStart then matchLit ['-', '-', '-'] (c :: r) else none) with
    | some t =>
      if t.head?.elim true isLineTerm then hruleChars ++ convertHrulesGo n false t
      else c :: convertHrulesGo n (isLineTerm c) r
    | none => c :: convertHrulesGo n (isLineTerm c) r

def convertHrules (s : List Char) : List Char := convertHrulesGo s.length true s

/-- The `plainText` value of `generateFallbackPdf` (lines 208-214): the
five chained replaces followed by `trim()`. -/
def pdfPlainText (markdownContent : String) : List Char :=
  jsTrim (convertHrules (convertBullets
    (replaceAll italicMatcher (replaceAll boldMatcher
      (stripHeaders markdownContent.toList)))))

/-- The word-wrap accumulator loop of lines 227-235: `currentLine` starts
empty; a word joins the current line when the trimmed join stays within 80
characters, otherwise the non-empty current line is flushed and the word
starts the next one; a final non-empty current line is flushed. -/
def wrapWordsGo : List (List Char) → List Char → List (List Char)
  | [], cur => if cur.isEmpty then [] else [cur]
  | w :: ws, cur =>
    if (jsTrim (cur ++ ' ' :: w)).length ≤ 80 then
      wrapWordsGo ws (jsTrim (cur ++ ' ' :: w))
    else
      (if cur.isEmpty then [] else [cur]) ++ wrapWordsGo ws w

/-- Lines 221-237: a line of at most 80 characters is kept whole, a longer
one is split on single spaces and re-packed. -/
def wrapLine (line : List Char) : List (List Char) :=
  if line.length ≤ 80 then [line]
  else wrapWordsGo (line.splitOn ' ') []

/-- The `wrappedLines` array: `plainText.split('\n')` wrapped line by
line. -/
def pdfWrappedLines (markdownContent : String) : List (List Char) :=
  ((pdfPlainText markdownContent).splitOn '\n').flatMap wrapLine

/-- `Math.floor((pageHeight - 2 * margin) / lineHeight)` = 46 (line 245). -/
def linesPerPage : Nat := (792 - 2 * 72) / 14

/-- The pagination loop of lines 249-251: successive slices of
`linesPerPage` wrapped lines.  Fuelled by the list length (each step drops
at least one element). -/
def chunkPagesGo : Nat → List (List Char) → List (List (List Char))
  | 0, _ => []
  | _ + 1, [] => []
  | n + 1, l => l.take linesPerPage :: chunkPagesGo n (l.drop linesPerPage)

/-- The `pages` array including the `[Document content]` placeholder pushed
when the pagination produced no pages (lines 253-255). -/
def pdfPages (markdownContent : String) : List (List (List Char)) :=
  if (chunkPagesGo (pdfWrappedLines markdownContent).length
      (pdfWrappedLines markdownContent)).isEmpty then
    [[("[Document content]" : String).toList]]
  else
    chunkPagesGo (pdfWrappedLines markdownContent).length
      (pdfWrappedLines markdownContent)

/-- Decimal digit as a character. -/
def digitChar (n : Nat) : Char := Char.ofNat (48 + n)

/-- Decimal rendering of a natural number (JS `Number.prototype.toString`
for the non-negative integers interpolated by the template literals),
fuelled by the number itself. -/
def natStrGo : Nat → Nat → List Char
  | 0, _ => []
  | fuel + 1, n =>
    if n < 10 then [digitChar n] else natStrGo fuel (n / 10) ++ [digitChar (n % 10)]

def natStr (n : Nat) : List Char := natStrGo (n + 1) n

/-- Decimal rendering of an integer (the `yPos` interpolation). -/
def intStr : Int → List Char
  | Int.ofNat n => natStr n
  | Int.negSucc n => '-' :: natStr (n + 1)

/-- Object 1 (line 263). -/
def pdfCatalogObj : List Char :=
  ("1 0 obj\n<< /Type /Catalog /Pages 2 0 R >>\nendobj" : String).toList

/-- Object 2 (lines 267-268): the kids list references objects 4… and the
count is the number of pages. -/
def pdfPagesObj (numPages : Nat) : List Char :=
  ("2 0 obj\n<< /Type /Pages /Kids [" : String).toList
    ++ List.intercalate [' ']
        ((List.range numPages).map (fun i => natStr (i + 4) ++ (" 0 R" : String).toList))
    ++ ("] /Count " : String).toList ++ natStr numPages
    ++ (" >>\nendobj" : String).toList

/-- Object 3 (line 272). -/
def pdfFontObj : List Char :=
  ("3 0 obj\n<< /Type /Font /Subtype /Type1 /BaseFont /Times-Roman >>\nendobj" : String).toList

/-- Page object `i` (0-based) of `numPages` (line 280): object number
`4 + i`, content stream object number `contentStartIndex + i` with
`contentStartIndex = 3 + numPages + 1`. -/
def pdfPageObj (numPages i : Nat) : List Char :=
  natStr (4 + i)
    ++ (" 0 obj\n<< /Type /Page /Parent 2 0 R /MediaBox [0 0 612 792] /Contents " : String).toList
    ++ natStr (4 + numPages + i)
    ++ (" 0 R /Resources << /Font << /F1 3 0 R >> >> >>\nendobj" : String).toList

/-- Lines 292-295: the chained replaces `\` → `\\`, `(` → `\(`, `)` → `\)`
on one text line. -/
def escapePdfLine (line : List Char) : List Char :=
  replaceAll (litMatcher [')'] ['\\', ')'])
    (replaceAll (litMatcher ['('] ['\\', '('])
      (replaceAll (litMatcher ['\\'] ['\\', '\\']) line))

/-- The per-line `Tm`/`Tj` commands of lines 291-299; `yPos` starts at
`792 - 72` and decreases by 14 per line. -/
def pdfLineCmds : List (List Char) → Int → List Char
  | [], _ => []
  | line :: rest, yPos =>
    ("1 0 0 1 72 " : String).toList ++ intStr yPos ++ (" Tm\n(" : String).toList
      ++ escapePdfLine line ++ (") Tj\n" : String).toList
      ++ pdfLineCmds rest (yPos - 14)

/-- The `textContent` of one content stream (lines 288-301). -/
def pdfTextContent (pageLines : List (List Char)) : List Char :=
  ("BT\n/F1 11 Tf\n" : String).toList ++ pdfLineCmds pageLines 720 ++ ("ET" : String).toList

/-- Content stream object (line 304); `/Length` is the string length of the
stream text (JS UTF-16 length; all characters emitted here are in the basic
plane, where it coincides with the character count). -/
def pdfContentObj (objNum : Nat) (pageLines : List (List Char)) : List Char :=
  natStr objNum ++ (" 0 obj\n<< /Length " : String).toList
    ++ natStr (pdfTextContent pageLines).length
    ++ (" >>\nstream\n" : String).toList ++ pdfTextContent pageLines
    ++ ("\nendstream\nendobj" : String).toList

/-- The `objects` array (lines 258-305): catalog, pages, font, one page
object per page, then one content stream per page; `pages[pageIndex]` is
index access, `getD` here. -/
def pdfObjects (pages : List (List (List Char))) : List (List Char) :=
  [pdfCatalogObj, pdfPagesObj pages.length, pdfFontObj]
    ++ (List.range pages.length).map (fun i => pdfPageObj pages.length i)
    ++ (List.range pages.length).map
        (fun i => pdfContentObj (4 + pages.length + i) (pages.getD i []))

def pdfHeader : List Char := ("%PDF-1.4\n" : String).toList

/-- One iteration of the emission loop (lines 311-314): record the current
string length as the object's offset, then append the object and a
newline. -/
def pdfStep (acc : List Char × List Nat) (obj : List Char) : List Char × List Nat :=
  (acc.1 ++ obj ++ ['\n'], acc.2 ++ [acc.1.length])

/-- The emission loop: the accumulated text after the header and the
recorded `offsets` (JS string lengths, i.e. character counts here). -/
def pdfAssemble (objs : List (List Char)) : List Char × List Nat :=
  objs.foldl pdfStep (pdfHeader, [])

/-- The recorded cross-reference offsets of `generateFallbackPdf`. -/
def pdfOffsets (markdownContent : String) : List Nat :=
  (pdfAssemble (pdfObjects (pdfPages markdownContent))).2

/-- One cross-reference entry (line 323):
`offset.toString().padStart(10, '0') + ' 00000 n \n'`. -/
def xrefEntry (offset : Nat) : List Char :=
  List.replicate (10 - (natStr offset).length) '0' ++ natStr offset
    ++ (" 00000 n \n" : String).toList

/-- Lines 316-331: the xref table and trailer appended after the object
bodies (`xrefOffset` is the string length accumulated so far). -/
def pdfXrefTail (markdownContent : String) : List Char :=
  ("xref\n0 " : String).toList
    ++ natStr ((pdfObjects (pdfPages markdownContent)).length + 1)
    ++ ("\n0000000000 65535 f \n" : String).toList
    ++ (pdfOffsets markdownContent).flatMap xrefEntry
    ++ ("trailer\n<< /Size " : String).toList
    ++ natStr ((pdfObjects (pdfPages markdownContent)).length + 1)
    ++ (" /Root 1 0 R >>\nstartxref\n" : String).toList
    ++ natStr (pdfAssemble (pdfObjects (pdfPages markdownContent))).1.length
    ++ ("\n%%EOF" : String).toList

/-- The complete PDF text (the JS string `pdf` at line 333). -/
def pdfString (markdownContent : String) : List Char :=
  (pdfAssemble (pdfObjects (pdfPages markdownContent))).1 ++ pdfXrefTail markdownContent

/-- `generateFallbackPdf` returns `Buffer.from(pdf, 'utf-8')`. -/
def generateFallbackPdf (markdownContent : String) : List Nat :=
  utf8Enc (pdfString markdownContent)

/-- The running byte offsets of the objects in the UTF-8 buffer: each
object starts one encoded object-plus-newline after the previous one. -/
def objsByteOffsets : List (List Char) → Nat → List Nat
  | [], _ => []
  | o :: rest, base => base :: objsByteOffsets rest (base + (utf8Enc (o ++ ['\n'])).length)

/-- The actual byte positions at which the objects' texts begin in the
returned buffer (proved to be such below). -/
def pdfByteOffsets (markdownContent : String) : List Nat :=
  objsByteOffsets (pdfObjects (pdfPages markdownContent)) (utf8Enc pdfHeader).length

/-- Decidable substring test (`String.prototype.includes`). -/
def hasSub : List Char → List Char → Bool
  | [], pat => (matchLit pat []).isSome
  | c :: r, pat => (matchLit pat (c :: r)).isSome || hasSub r pat

/-! ### generateFallbackDocx (src/unnamed/part_002, lines 337-412) -/

/-- `escapeXml` (lines 404-411): the five chained global replaces, `&`
first. -/
def escapeXml (text : List Char) : List Char :=
  replaceAll (litMatcher [Char.ofNat 39] ['&', 'a', 'p', 'o', 's', ';'])
    (replaceAll (litMatcher ['"'] ['&', 'q', 'u', 'o', 't', ';'])
      (replaceAll (litMatcher ['>'] ['&', 'g', 't', ';'])
        (replaceAll (litMatcher ['<'] ['&', 'l', 't', ';'])
          (replaceAll (litMatcher ['&'] ['&', 'a', 'm', 'p', ';']) text))))

/-- `line.match(/^#… (.+)$/)` for a heading marker: without the `m` flag,
`^`/`$` anchor to the whole line, so the marker must lead and the rest of
the line must be non-empty and free of line terminators (`.` excludes
them; a split line can still carry a `\r`). -/
def headingText (marker : List Char) (line : List Char) : Option (List Char) :=
  match matchLit marker line with
  | some rest =>
    if rest ≠ [] ∧ rest.all (fun c => !isLineTerm c) then some rest else none
  | none => none

/-- The empty paragraph emitted for a blank line (line 344). -/
def emptyParaXml : List Char :=
  ("<w:p><w:r><w:t></w:t></w:r></w:p>" : String).toList

/-- A heading paragraph (lines 354-358). -/
def headingXml (style : List Char) (text : List Char) : List Char :=
  ("<w:p><w:pPr><w:pStyle w:val=\"" : String).toList ++ style
    ++ ("\"/></w:pPr><w:r><w:t>" : String).toList ++ escapeXml text
    ++ ("</w:t></w:r></w:p>" : String).toList

/-- The XML produced for one input line (lines 342-370): blank lines give
an empty paragraph, `# `/`## `/`### ` headings are styled (tried in that
order), `- ` becomes a bullet, everything else is a plain paragraph. -/
def docxLineXml (line : List Char) : List Char :=
  if (jsTrim line).isEmpty then emptyParaXml
  else
    match headingText ['#', ' '] line with
    | some t => headingXml (['H', 'e', 'a', 'd', 'i', 'n', 'g', '1']) t
    | none =>
      match headingText ['#', '#', ' '] line with
      | some t => headingXml (['H', 'e', 'a', 'd', 'i', 'n', 'g', '2']) t
      | none =>
        match headingText ['#', '#', '#', ' '] line with
        | some t => headingXml (['H', 'e', 'a', 'd', 'i', 'n', 'g', '3']) t
        | none =>
          ("<w:p><w:r><w:t>" : String).toList
            ++ escapeXml (match matchLit ['-', ' '] line with
                | some rest => '•' :: ' ' :: rest
                | none => line)
            ++ ("</w:t></w:r></w:p>" : String).toList

/-- The accumulated `documentXml` (the loop of lines 342-370 over
`markdownContent.split('\n')`). -/
def docxDocumentXml (markdownContent : String) : List Char :=
  (markdownContent.toList.splitOn '\n').flatMap docxLineXml

/-- The fixed XML before the paragraphs in `documentContent`
(lines 373-375). -/
def docxContentPre : List Char :=
  ("<?xml version=\"1.0\" encoding=\"UTF-8\" standalone=\"yes\"?>\n<w:document xmlns:w=\"http://schemas.openxmlformats.org/wordprocessingml/2006/main\">\n<w:body>\n" : String).toList

/-- The fixed XML after the paragraphs (lines 377-382). -/
def docxContentPost : List Char :=
  ("\n<w:sectPr>\n<w:pgSz w:w=\"12240\" w:h=\"15840\"/>\n<w:pgMar w:top=\"1440\" w:right=\"1440\" w:bottom=\"1440\" w:left=\"1440\"/>\n</w:sectPr>\n</w:body>\n</w:document>" : String).toList

/-- The `documentContent` template literal (lines 373-382). -/
def docxDocumentContent (markdownContent : String) : List Char :=
  docxContentPre ++ docxDocumentXml markdownContent ++ docxContentPost

/-- The fixed `[Content_Types].xml` part (lines 384-389). -/
def docxContentTypesStr : String :=
  "<?xml version=\"1.0\" encoding=\"UTF-8\" standalone=\"yes\"?>\n<Types xmlns=\"http://schemas.openxmlformats.org/package/2006/content-types\">\n<Default Extension=\"rels\" ContentType=\"application/vnd.openxmlformats-package.relationships+xml\"/>\n<Default Extension=\"xml\" ContentType=\"application/xml\"/>\n<Override PartName=\"/word/document.xml\" ContentType=\"application/vnd.openxmlformats-officedocument.wordprocessingml.document.main+xml\"/>\n</Types>"

/-- The fixed `_rels/.rels` part (lines 391-394). -/
def docxRelsStr : String :=
  "<?xml version=\"1.0\" encoding=\"UTF-8\" standalone=\"yes\"?>\n<Relationships xmlns=\"http://schemas.openxmlformats.org/package/2006/relationships\">\n<Relationship Id=\"rId1\" Type=\"http://schemas.openxmlformats.org/officeDocument/2006/relationships/officeDocument\" Target=\"word/document.xml\"/>\n</Relationships>"

/-- The fixed `word/_rels/document.xml.rels` part (lines 396-398). -/
def docxDocumentRelsStr : String :=
  "<?xml version=\"1.0\" encoding=\"UTF-8\" standalone=\"yes\"?>\n<Relationships xmlns=\"http://schemas.openxmlformats.org/package/2006/relationships\">\n</Relationships>"

/-- `generateFallbackDocx` (line 401): the four parts zipped. -/
def generateFallbackDocx (markdownContent : String) : List Nat :=
  createMinimalDocxZip docxContentTypesStr docxRelsStr docxDocumentRelsStr
    (String.mk (docxDocumentContent markdownContent))

/-! ### Structure of the emitted PDF -/

/-- Closed form of the recorded character offsets: each object starts one
object-plus-newline after the previous one. -/
def objsOffsets : List (List Char) → Nat → List Nat
  | [], _ => []
  | o :: rest, base => base :: objsOffsets rest (base + (o.length + 1))

lemma utf8Enc_nil : utf8Enc [] = [] := rfl

lemma utf8Enc_cons (c : Char) (l : List Char) :
    utf8Enc (c :: l) = utf8Bytes c ++ utf8Enc l := rfl

lemma utf8Enc_append (a b : List Char) :
    utf8Enc (a ++ b) = utf8Enc a ++ utf8Enc b := by
  induction a with
  | nil => rfl
  | cons c r ih => simp [List.cons_append, utf8Enc_cons, ih, List.append_assoc]

lemma utf8Bytes_length_ascii {c : Char} (h : c.toNat < 128) :
    (utf8Bytes c).length = 1 := by
  simp [utf8Bytes, if_pos h]

lemma utf8Enc_length_ascii {s : List Char} (h : ∀ c ∈ s, c.toNat < 128) :
    (utf8Enc s).length = s.length := by
  induction s with
  | nil => rfl
  | cons c r ih =>
    rw [utf8Enc_cons, List.length_append,
      utf8Bytes_length_ascii (h c (List.mem_cons_self c r)),
      ih (fun d hd => h d (List.mem_cons_of_mem c hd)), List.length_cons]
    omega

lemma linesPerPage_eq : linesPerPage = 46 := rfl

lemma chunkPagesGo_length (fuel : Nat) : ∀ l : List (List Char), l.length ≤ fuel →
    (chunkPagesGo fuel l).length = (l.length + 45) / 46 := by
  induction fuel with
  | zero =>
    intro l h
    have hl : l = [] := List.eq_nil_of_length_eq_zero (Nat.le_zero.mp h)
    subst hl
    decide
  | succ n ih =>
    intro l h
    cases l with
    | nil =>
      have he : chunkPagesGo (n + 1) ([] : List (List Char)) = [] := rfl
      rw [he]
      decide
    | cons x xs =>
      have he : chunkPagesGo (n + 1) (x :: xs)
          = (x :: xs).take linesPerPage :: chunkPagesGo n ((x :: xs).drop linesPerPage) := rfl
      have hdrop : ((x :: xs).drop linesPerPage).length = (x :: xs).length - 46 := by
        rw [List.length_drop, linesPerPage_eq]
      have hle : ((x :: xs).drop linesPerPage).length ≤ n := by
        rw [hdrop]
        simp only [List.length_cons] at h ⊢
        omega
      rw [he, List.length_cons, ih _ hle, hdrop]
      simp only [List.length_cons] at h ⊢
      omega

lemma chunkPagesGo_ne_nil {l : List (List Char)} (h : l ≠ []) :
    chunkPagesGo l.length l ≠ [] := by
  cases l with
  | nil => exact absurd rfl h
  | cons x xs =>
    intro hc
    have he : chunkPagesGo (x :: xs).length (x :: xs)
        = (x :: xs).take linesPerPage :: chunkPagesGo xs.length ((x :: xs).drop linesPerPage) :=
      rfl
    rw [he] at hc
    exact List.cons_ne_nil _ _ hc

lemma pdfPages_of_wrapped_ne_nil {md : String} (h : pdfWrappedLines md ≠ []) :
    pdfPages md
      = chunkPagesGo (pdfWrappedLines md).length (pdfWrappedLines md) := by
  rw [pdfPages, if_neg]
  simpa [List.isEmpty_iff] using chunkPagesGo_ne_nil h

lemma pdfPages_length_of_lines {md : String} (h : 1 ≤ (pdfWrappedLines md).length) :
    (pdfPages md).length = ((pdfWrappedLines md).length + 45) / 46 := by
  have hne : pdfWrappedLines md ≠ [] := by
    intro hnil
    rw [hnil] at h
    simp at h
  rw [pdfPages_of_wrapped_ne_nil hne, chunkPagesGo_length _ _ (le_refl _)]

/-- The pagination never yields zero pages: the placeholder branch covers
an empty chunk list. -/
lemma pdfPages_ne_nil (md : String) : pdfPages md ≠ [] := by
  by_cases hc : (chunkPagesGo (pdfWrappedLines md).length (pdfWrappedLines md)).isEmpty
  · rw [pdfPages, if_pos hc]
    exact List.cons_ne_nil _ _
  · rw [pdfPages, if_neg hc]
    intro hnil
    rw [hnil] at hc
    exact hc rfl

lemma pdfObjects_length (pages : List (List (List Char))) :
    (pdfObjects pages).length = 3 + 2 * pages.length := by
  simp only [pdfObjects, List.length_append, List.length_map, List.length_range,
    List.length_cons, List.length_nil]
  omega

lemma pdfFold_fst (objs : List (List Char)) : ∀ (accS : List Char) (accO : List Nat),
    (objs.foldl pdfStep (accS, accO)).1
      = accS ++ objs.flatMap (fun o => o ++ ['\n']) := by
  induction objs with
  | nil => intro accS accO; simp
  | cons o rest ih =>
    intro accS accO
    rw [List.foldl_cons, show pdfStep (accS, accO) o
        = (accS ++ o ++ ['\n'], accO ++ [accS.length]) from rfl, ih]
    simp [List.append_assoc]

lemma pdfFold_snd (objs : List (List Char)) : ∀ (accS : List Char) (accO : List Nat),
    (objs.foldl pdfStep (accS, accO)).2 = accO ++ objsOffsets objs accS.length := by
  induction objs with
  | nil => intro accS accO; simp [objsOffsets]
  | cons o rest ih =>
    intro accS accO
    rw [List.foldl_cons, show pdfStep (accS, accO) o
        = (accS ++ o ++ ['\n'], accO ++ [accS.length]) from rfl, ih]
    simp [objsOffsets, List.length_append, List.append_assoc]

lemma objsOffsets_length (objs : List (List Char)) : ∀ base : Nat,
    (objsOffsets objs base).length = objs.length := by
  induction objs with
  | nil => intro base; rfl
  | cons o rest ih => intro base; simp [objsOffsets, ih]

lemma objsByteOffsets_length (objs : List (List Char)) : ∀ base : Nat,
    (objsByteOffsets objs base).length = objs.length := by
  induction objs with
  | nil => intro base; rfl
  | cons o rest ih => intro base; simp [objsByteOffsets, ih]

lemma objsByteOffsets_getD (objs : List (List Char)) : ∀ (base i : Nat), i < objs.length →
    (objsByteOffsets objs base).getD i 0
      = base + (utf8Enc ((objs.take i).flatMap (fun o => o ++ ['\n']))).length := by
  induction objs with
  | nil => intro base i hi; simp at hi
  | cons o rest ih =>
    intro base i hi
    cases i with
    | zero => simp [objsByteOffsets, utf8Enc_nil]
    | succ i =>
      rw [show objsByteOffsets (o :: rest) base
          = base :: objsByteOffsets rest (base + (utf8Enc (o ++ ['\n'])).length) from rfl,
        List.getD_cons_succ, ih _ i (by simpa using Nat.lt_of_succ_lt_succ hi),
        List.take_succ_cons]
      simp only [List.flatMap_cons, utf8Enc_append, List.length_append]
      omega

lemma flatMap_take_decomp (objs : List (List Char)) : ∀ i : Nat, i < objs.length →
    ∃ B, objs.flatMap (fun o => o ++ ['\n'])
      = (objs.take i).flatMap (fun o => o ++ ['\n'])
        ++ (objs.getD i [] ++ '\n' :: B) := by
  induction objs with
  | nil => intro i hi; simp at hi
  | cons o rest ih =>
    intro i hi
    cases i with
    | zero =>
      refine ⟨rest.flatMap (fun o => o ++ ['\n']), ?_⟩
      simp [List.flatMap_cons, List.append_assoc]
    | succ i =>
      obtain ⟨B, hB⟩ := ih i (by simpa using Nat.lt_of_succ_lt_succ hi)
      refine ⟨B, ?_⟩
      simp only [List.flatMap_cons, List.take_succ_cons, List.getD_cons_succ, hB,
        List.append_assoc]

lemma objsOffsets_eq_byteOffsets (objs : List (List Char)) : ∀ base : Nat,
    (∀ o ∈ objs, ∀ c ∈ o, c.toNat < 128) →
    objsOffsets objs base = objsByteOffsets objs base := by
  induction objs with
  | nil => intro base _; rfl
  | cons o rest ih =>
    intro base h
    have ho : ∀ c ∈ o ++ ['\n'], c.toNat < 128 := by
      intro c hc
      rcases List.mem_append.mp hc with hc | hc
      · exact h o (List.mem_cons_self o rest) c hc
      · simp only [List.mem_singleton] at hc
        subst hc
        decide
    rw [show objsOffsets (o :: rest) base
        = base :: objsOffsets rest (base + (o.length + 1)) from rfl,
      show objsByteOffsets (o :: rest) base
        = base :: objsByteOffsets rest (base + (utf8Enc (o ++ ['\n'])).length) from rfl,
      utf8Enc_length_ascii ho, List.length_append, List.length_singleton,
      ih _ (fun o' ho' c hc => h o' (List.mem_cons_of_mem _ ho') c hc)]

lemma natStrGo_length_le : ∀ fuel n k : Nat, n < fuel → 1 ≤ k → n < 10 ^ k →
    (natStrGo fuel n).length ≤ k := by
  intro fuel
  induction fuel with
  | zero => intro n k hn _ _; exact absurd hn (Nat.not_lt_zero n)
  | succ fuel ih =>
    intro n k hn hk hpow
    by_cases h10 : n < 10
    · rw [natStrGo, if_pos h10]
      simpa using hk
    · have hk2 : 2 ≤ k := by
        rcases Nat.lt_or_ge k 2 with hlt | hge
        · have hk1 : k = 1 := by omega
          rw [hk1, pow_one] at hpow
          exact absurd hpow h10
        · exact hge
      have hdiv_lt_fuel : n / 10 < fuel := by omega
      have hsplit : 10 ^ k = 10 ^ (k - 1) * 10 := by
        rw [← pow_succ]
        congr 1
        omega
      have hdiv_pow : n / 10 < 10 ^ (k - 1) := by
        rw [Nat.div_lt_iff_lt_mul (by norm_num : (0 : Nat) < 10)]
        omega
      have hrec := ih (n / 10) (k - 1) hdiv_lt_fuel (by omega) hdiv_pow
      rw [natStrGo, if_neg h10, List.length_append]
      simp only [List.length_singleton]
      omega

lemma natStr_length_le {n k : Nat} (hk : 1 ≤ k) (h : n < 10 ^ k) :
    (natStr n).length ≤ k :=
  natStrGo_length_le (n + 1) n k (Nat.lt_succ_self n) hk h

lemma xrefEntry_length {off : Nat} (h : off < 10 ^ 10) : (xrefEntry off).length = 20 := by
  have hd : (natStr off).length ≤ 10 := natStr_length_le (by norm_num) h
  simp only [xrefEntry, List.length_append, List.length_replicate]
  have : (" 00000 n \n" : String).toList.length = 10 := by decide
  omega

/-- A list that begins with a literal that itself begins with `p` begins
with `p`. -/
lemma starts_of_lit (δ : List Char) {lit p : List Char} (h : lit = p ++ δ)
    (rest : List Char) : ∃ r, lit ++ rest = p ++ r :=
  ⟨δ ++ rest, by rw [h, List.append_assoc]⟩

/-- Every paragraph emitted by the DOCX line conversion opens with
`<w:p>`. -/
lemma docxLineXml_starts (line : List Char) :
    ∃ r, docxLineXml line = ("<w:p>" : String).toList ++ r := by
  rw [docxLineXml]
  by_cases h1 : (jsTrim line).isEmpty
  · rw [if_pos h1]
    exact ⟨("<w:r><w:t></w:t></w:r></w:p>" : String).toList, by decide⟩
  · rw [if_neg h1]
    have hhead : ∀ style t, ∃ r, headingXml style t = ("<w:p>" : String).toList ++ r := by
      intro style t
      rw [headingXml]
      simp only [List.append_assoc]
      refine starts_of_lit (("<w:pPr><w:pStyle w:val=\"" : String).toList) ?_ _
      decide
    rcases hh1 : headingText ['#', ' '] line with _ | t
    · simp only [hh1]
      rcases hh2 : headingText ['#', '#', ' '] line with _ | t
      · simp only [hh2]
        rcases hh3 : headingText ['#', '#', '#', ' '] line with _ | t
        · simp only [hh3]
          simp only [List.append_assoc]
          refine starts_of_lit (("<w:r><w:t>" : String).toList) ?_ _
          decide
        · simp only [hh3]
          exact hhead _ t
      · simp only [hh2]
        exact hhead _ t
    · simp only [hh1]
      exact hhead _ t

lemma splitOn_newline_ne_nil (l : List Char) : l.splitOn '\n' ≠ [] := by
  simp only [List.splitOn]
  exact List.splitOnP_ne_nil _ l

/-- The document body always contains at least one `<w:p>` paragraph
element. -/
lemma docxDocumentContent_haspara (md : String) :
    ∃ pre post, docxDocumentContent md
      = pre ++ (("<w:p>" : String).toList ++ post) := by
  obtain ⟨l0, rest, hls⟩ : ∃ l0 rest, md.toList.splitOn '\n' = l0 :: rest := by
    cases h : md.toList.splitOn '\n' with
    | nil => exact absurd h (splitOn_newline_ne_nil md.toList)
    | cons a b => exact ⟨a, b, rfl⟩
  obtain ⟨r, hr⟩ := docxLineXml_starts l0
  refine ⟨docxContentPre, r ++ (rest.flatMap docxLineXml ++ docxContentPost), ?_⟩
  rw [docxDocumentContent, docxDocumentXml, hls, List.flatMap_cons, hr]
  simp [List.append_assoc]

/-- C2: for any input, the wrapped lines paginate into `⌈N / 46⌉` pages
(46 = `⌊(792 − 2·72) / 14⌋`) when `N ≥ 1`; the object list holds
`3 + 2 · pages` objects; the cross-reference offset list has exactly one
entry per object; each object's text actually begins at byte position
`pdfByteOffsets` of the returned buffer; the recorded offsets equal those
byte positions whenever the PDF text is pure ASCII (they are JS string
lengths, i.e. character counts); and an offset below `10^10` renders as a
ten-digit zero-padded twenty-character xref entry.  (The ASCII proviso is
essential: the counterexample shows the recorded offsets diverging from
the byte positions once multi-byte characters are emitted.) -/
theorem generateFallbackPdf_structure (md : String) :
    (1 ≤ (pdfWrappedLines md).length →
      (pdfPages md).length = ((pdfWrappedLines md).length + 45) / 46)
    ∧ (pdfObjects (pdfPages md)).length = 3 + 2 * (pdfPages md).length
    ∧ (pdfOffsets md).length = (pdfObjects (pdfPages md)).length
    ∧ (pdfByteOffsets md).length = (pdfObjects (pdfPages md)).length
    ∧ (∀ i, i < (pdfObjects (pdfPages md)).length → ∃ pre post,
        generateFallbackPdf md
          = pre ++ (utf8Enc ((pdfObjects (pdfPages md)).getD i []) ++ post)
        ∧ pre.length = (pdfByteOffsets md).getD i 0)
    ∧ ((∀ c ∈ pdfString md, c.toNat < 128) → pdfOffsets md = pdfByteOffsets md)
    ∧ (∀ off, off < 10 ^ 10 → (xrefEntry off).length = 20) := by
  have hasm : (pdfAssemble (pdfObjects (pdfPages md))).1
      = pdfHeader ++ (pdfObjects (pdfPages md)).flatMap (fun o => o ++ ['\n']) := by
    rw [pdfAssemble]
    exact pdfFold_fst _ pdfHeader []
  have hoffs : pdfOffsets md
      = objsOffsets (pdfObjects (pdfPages md)) pdfHeader.length := by
    rw [pdfOffsets, pdfAssemble, pdfFold_snd, List.nil_append]
  refine ⟨fun h => pdfPages_length_of_lines h, pdfObjects_length _, ?_, ?_, ?_, ?_, ?_⟩
  · rw [hoffs, objsOffsets_length]
  · rw [pdfByteOffsets, objsByteOffsets_length]
  · intro i hi
    obtain ⟨B, hB⟩ := flatMap_take_decomp (pdfObjects (pdfPages md)) i hi
    refine ⟨utf8Enc (pdfHeader
        ++ ((pdfObjects (pdfPages md)).take i).flatMap (fun o => o ++ ['\n'])),
      utf8Enc ('\n' :: B) ++ utf8Enc (pdfXrefTail md), ?_, ?_⟩
    · rw [generateFallbackPdf, pdfString, hasm, hB]
      simp only [utf8Enc_append, utf8Enc_cons, List.append_assoc]
    · rw [utf8Enc_append, List.length_append, pdfByteOffsets,
        objsByteOffsets_getD _ _ i hi]
  · intro hascii
    have hmem : ∀ o ∈ pdfObjects (pdfPages md), ∀ c ∈ o, c.toNat < 128 := by
      intro o ho c hc
      apply hascii
      rw [pdfString]
      apply List.mem_append_left
      rw [hasm]
      apply List.mem_append_right
      exact List.mem_flatMap.mpr ⟨o, ho, List.mem_append_left _ hc⟩
    rw [hoffs, objsOffsets_eq_byteOffsets _ _ hmem, pdfByteOffsets,
      show pdfHeader.length = (utf8Enc pdfHeader).length from by decide]
  · intro off hoff
    exact xrefEntry_length hoff

/-- Witness for C2 at the two-character input "hi": one wrapped line, one
page, and a concrete xref entry width. -/
theorem generateFallbackPdf_structure_witness :
    1 ≤ (pdfWrappedLines (String.mk ['h', 'i'])).length
    ∧ (pdfPages (String.mk ['h', 'i'])).length
        = ((pdfWrappedLines (String.mk ['h', 'i'])).length + 45) / 46
    ∧ (45 : Nat) < 10 ^ 10 ∧ (xrefEntry 45).length = 20 := by
  obtain ⟨h1, _, _, _, _, _, h7⟩ := generateFallbackPdf_structure (String.mk ['h', 'i'])
  exact ⟨by decide, h1 (by decide), by norm_num, h7 45 (by norm_num)⟩

set_option maxRecDepth 100000 in
/-- C2 counterexample: for forty-seven markdown bullet lines (which become
two pages of `•`-bulleted text), the recorded cross-reference offsets are
character counts and differ from the actual byte positions of the objects
in the UTF-8 buffer (the second content stream is recorded at 1753 but
starts at byte 1845). -/
theorem pdf_offsets_not_byte_offsets :
    pdfOffsets (String.mk (List.intercalate ['\n'] (List.replicate 47 ['-', ' ', 'a'])))
      ≠ pdfByteOffsets
          (String.mk (List.intercalate ['\n'] (List.replicate 47 ['-', ' ', 'a']))) := by
  decide

/-- C8: the PDF pagination never yields zero pages; the empty input yields
exactly one page holding the single empty wrapped line (not the
`[Document content]` placeholder — see the counterexample); the DOCX body
always contains a `<w:p>` paragraph element; and a whitespace-only input
line maps to the empty paragraph rather than being dropped. -/
theorem zero_content_fallbacks (md : String) :
    1 ≤ (pdfPages md).length
    ∧ (md.toList = [] → pdfPages md = [[[]]])
    ∧ (∃ pre post, docxDocumentContent md = pre ++ (("<w:p>" : String).toList ++ post))
    ∧ (∀ line, jsTrim line = [] → docxLineXml line = emptyParaXml) := by
  refine ⟨List.length_pos.mpr (pdfPages_ne_nil md), ?_, docxDocumentContent_haspara md, ?_⟩
  · intro h
    rw [← stringMk_toList md, h]
    decide
  · intro line h
    rw [docxLineXml, if_pos (by rw [h]; rfl)]

/-- Witness for C8 at the empty input and a whitespace line. -/
theorem zero_content_fallbacks_witness :
    1 ≤ (pdfPages (String.mk [])).length
    ∧ pdfPages (String.mk []) = [[[]]]
    ∧ docxLineXml [' '] = emptyParaXml := by
  obtain ⟨h1, h2, _, h4⟩ := zero_content_fallbacks (String.mk [])
  exact ⟨h1, h2 rfl, h4 [' '] (by decide)⟩

set_option maxRecDepth 100000 in
/-- C8 counterexample: for the empty input the single page holds one empty
line, and the emitted PDF text does not contain the placeholder
`[Document content]` anywhere — the placeholder branch is unreachable
because splitting always yields at least one line. -/
theorem pdf_empty_no_placeholder :
    pdfPages (String.mk []) = [[[]]]
    ∧ hasSub (pdfString (String.mk []))
        (("[Document content]" : String).toList) = false := by
  decide

end LegalDoc
